import Mathlib

/-!
Verification of the brand-logo resolution pipeline (src/fetch_logos.py).

The Python source is shallowly embedded: pure string/byte helpers become
Lean functions on `String` / `List Nat` (bytes as numbers 0..255), the
image normalizer becomes a function on an explicit RGBA image model, and
the network-backed source chain becomes a function parameterized by an
environment of stage stubs (each provider stage abstracted to the value
it would return), mirroring the control flow of the two pipeline
functions line by line.  Python `str.lower` is modelled on the ASCII
range (no code point outside ASCII lowercases to any ASCII character
occurring in the byte-sniffing needles or slug alphabet, so the
substring checks below are unaffected).
-/

/-! ## Utilities: slugify (fetch_logos.py lines 45-47) -/

/-- Model of Python `str.lower` for one character (ASCII range). -/
def pyLowerChar (c : Char) : Char :=
  if 65 ≤ c.toNat ∧ c.toNat ≤ 90 then Char.ofNat (c.toNat + 32) else c

/-- Model of Python `str.lower` on a whole string. -/
def lowerStr (s : String) : String := ⟨s.data.map pyLowerChar⟩

/-- Model of Python `str.strip()` (ASCII whitespace). -/
def pyStrip (s : String) : String :=
  let ws := fun c : Char => c.toNat = 32 ∨ (9 ≤ c.toNat ∧ c.toNat ≤ 13)
  ⟨((s.data.dropWhile (fun c => decide (ws c))).reverse.dropWhile
      (fun c => decide (ws c))).reverse⟩

/-- Characters matching the class `[a-z0-9]`. -/
def isLowerAlnum (c : Char) : Bool :=
  (97 ≤ c.toNat && c.toNat ≤ 122) || (48 ≤ c.toNat && c.toNat ≤ 57)

/-- Model of `re.sub(pattern+, "-", s)`: replaces each maximal run of
characters satisfying `p` by a single hyphen. -/
def collapseRuns (p : Char → Bool) : List Char → List Char
  | [] => []
  | [c] => if p c then ['-'] else [c]
  | c :: d :: rest =>
    if p c && p d then collapseRuns p (d :: rest)
    else (if p c then '-' else c) :: collapseRuns p (d :: rest)

/-- Model of Python `.strip("-")`: drop leading and trailing hyphens. -/
def stripDashes (l : List Char) : List Char :=
  ((l.dropWhile (fun c => c == '-')).reverse.dropWhile (fun c => c == '-')).reverse

/-- Character-level body of `slugify`: lower, collapse non-`[a-z0-9]` runs
to `-`, collapse `-` runs to `-`, strip `-` from both ends. -/
def slugChars (l : List Char) : List Char :=
  stripDashes (collapseRuns (fun c => c == '-')
    (collapseRuns (fun c => !isLowerAlnum c) (l.map pyLowerChar)))

/-- Embedding of `slugify` (fetch_logos.py lines 45-47). -/
def slugify (s : String) : String := ⟨slugChars s.data⟩

/-! ## Byte sniffing (fetch_logos.py lines 54-62) -/

/-- Model of Python `str.lower` on a decoded code point (ASCII range). -/
def cpLower (n : Nat) : Nat := if 65 ≤ n ∧ n ≤ 90 then n + 32 else n

/-- UTF-8 decoding with `errors="ignore"` (maximal-subpart skipping), on
byte values; `fuel` bounds recursion and is instantiated with the input
length.  Returns the decoded code points. -/
def utf8Go : Nat → List Nat → List Nat
  | 0, _ => []
  | _, [] => []
  | fuel+1, b :: rest =>
    if b < 0x80 then b :: utf8Go fuel rest
    else if 0xC2 ≤ b && b ≤ 0xDF then
      match rest with
      | b2 :: rest2 =>
        if 0x80 ≤ b2 && b2 ≤ 0xBF then
          ((b - 0xC0) * 0x40 + (b2 - 0x80)) :: utf8Go fuel rest2
        else utf8Go fuel rest
      | [] => []
    else if 0xE0 ≤ b && b ≤ 0xEF then
      match rest with
      | b2 :: rest2 =>
        if (if b == 0xE0 then 0xA0 else 0x80) ≤ b2 &&
            b2 ≤ (if b == 0xED then 0x9F else 0xBF) then
          match rest2 with
          | b3 :: rest3 =>
            if 0x80 ≤ b3 && b3 ≤ 0xBF then
              ((b - 0xE0) * 0x1000 + (b2 - 0x80) * 0x40 + (b3 - 0x80)) :: utf8Go fuel rest3
            else utf8Go fuel rest2
          | [] => []
        else utf8Go fuel rest
      | [] => []
    else if 0xF0 ≤ b && b ≤ 0xF4 then
      match rest with
      | b2 :: rest2 =>
        if (if b == 0xF0 then 0x90 else 0x80) ≤ b2 &&
            b2 ≤ (if b == 0xF4 then 0x8F else 0xBF) then
          match rest2 with
          | b3 :: rest3 =>
            if 0x80 ≤ b3 && b3 ≤ 0xBF then
              match rest3 with
              | b4 :: rest4 =>
                if 0x80 ≤ b4 && b4 ≤ 0xBF then
                  ((b - 0xF0) * 0x40000 + (b2 - 0x80) * 0x1000 +
                    (b3 - 0x80) * 0x40 + (b4 - 0x80)) :: utf8Go fuel rest4
                else utf8Go fuel rest3
              | [] => []
            else utf8Go fuel rest2
          | [] => []
        else utf8Go fuel rest
      | [] => []
    else utf8Go fuel rest

/-- Model of `bytes.decode("utf-8", "ignore")`. -/
def utf8DecodeIgnore (l : List Nat) : List Nat := utf8Go l.length l

/-- Whether `p` is a prefix of `l` (over any type with decidable equality). -/
def isPrefixL {α : Type} [DecidableEq α] : List α → List α → Bool
  | [], _ => true
  | _ :: _, [] => false
  | a :: ps, b :: bs => decide (a = b) && isPrefixL ps bs

/-- Model of the Python `in` substring test: `needle` occurs contiguously
inside `hay`. -/
def containsSub {α : Type} [DecidableEq α] (needle : List α) : List α → Bool
  | [] => needle.isEmpty
  | b :: bs => isPrefixL needle (b :: bs) || containsSub needle bs

/-- Embedding of `is_svg_bytes` (lines 54-56): raw prefix `b"<?xml"`, or
`"<svg"` inside the lowercased UTF-8 decode of the first 200 bytes. -/
def is_svg_bytes (b : List Nat) : Bool :=
  decide (b.take 5 = [60, 63, 120, 109, 108]) ||
    containsSub [60, 115, 118, 103] ((utf8DecodeIgnore (b.take 200)).map cpLower)

/-- Embedding of `is_png_bytes` (lines 58-59): the 4-byte PNG magic. -/
def is_png_bytes (b : List Nat) : Bool := decide (b.take 4 = [137, 80, 78, 71])

/-- Embedding of `is_jpg_bytes` (lines 61-62): the 3-byte JPEG magic. -/
def is_jpg_bytes (b : List Nat) : Bool := decide (b.take 3 = [255, 216, 255])

/-- Asset formats distinguished by `try_download`. -/
inductive Fmt
  | svg
  | png
  | jpg
deriving DecidableEq

/-- Lowercase a content-type string (the code lowercases the header). -/
def ctypeLower (ctype : String) : List Char := ctype.data.map pyLowerChar

/-- Embedding of the classification performed by `try_download`
(lines 265-278) on a fully buffered payload `data` with declared
transport content type `ctype`: byte sniffing OR declared-type substring
tests, in the source order svg, png, jpg. -/
def classify (data : List Nat) (ctype : String) : Option Fmt :=
  if is_svg_bytes data || containsSub "image/svg".data (ctypeLower ctype) then
    some Fmt.svg
  else if is_png_bytes data || containsSub "image/png".data (ctypeLower ctype) then
    some Fmt.png
  else if containsSub "image/jpeg".data (ctypeLower ctype) || is_jpg_bytes data then
    some Fmt.jpg
  else none

/-! ## URL host extraction (model of `urllib.parse.urlparse(...).hostname`)
and `is_same_or_subdomain` (fetch_logos.py lines 64-69) -/

/-- Whether a candidate scheme string is valid per `urllib.parse`
(letter followed by letters, digits, `+`, `-`, `.`). -/
def validScheme : List Char → Bool
  | [] => false
  | c :: cs =>
    ((65 ≤ c.toNat && c.toNat ≤ 90) || (97 ≤ c.toNat && c.toNat ≤ 122)) &&
      cs.all (fun d =>
        (65 ≤ d.toNat && d.toNat ≤ 90) || (97 ≤ d.toNat && d.toNat ≤ 122) ||
        (48 ≤ d.toNat && d.toNat ≤ 57) || d == '+' || d == '-' || d == '.')

/-- Split a character list at its first colon, if any. -/
def splitFirstColon : List Char → Option (List Char × List Char)
  | [] => none
  | c :: cs =>
    if c == ':' then some ([], cs)
    else match splitFirstColon cs with
      | some (pre, post) => some (c :: pre, post)
      | none => none

/-- Drop a leading `scheme:` when the scheme is valid, as `urlparse` does. -/
def stripScheme (l : List Char) : List Char :=
  match splitFirstColon l with
  | some (pre, post) => if validScheme pre then post else l
  | none => l

/-- Keep the part after the last `@` (drops a userinfo component). -/
def afterLastAt (l : List Char) : List Char :=
  (l.reverse.takeWhile (fun c => !(c == '@'))).reverse

/-- Model of `urlparse(url).hostname or ""`: a host is parsed only when
the remainder after an optional scheme starts with `//`; the netloc runs
to the first `/`, `?` or `#`; userinfo and port are dropped and the host
is lowercased.  A URL with no netloc yields the empty string. -/
def hostnameChars (url : List Char) : List Char :=
  match stripScheme url with
  | '/' :: '/' :: r =>
    ((afterLastAt (r.takeWhile (fun c => !(c == '/' || c == '?' || c == '#')))).takeWhile
      (fun c => !(c == ':'))).map pyLowerChar
  | _ => []

/-- String-level wrapper for `hostnameChars`. -/
def hostnameOf (url : String) : String := ⟨hostnameChars url.data⟩

/-- Whether `pre` is a prefix of the string `s` (data-level model of
`str.startswith`). -/
def startsWithStr (s pre : String) : Bool := isPrefixL pre.data s.data

/-- Whether `suf` is a suffix of the string `s` (data-level model of
`str.endswith`). -/
def endsWithStr (s suf : String) : Bool := isPrefixL suf.data.reverse s.data.reverse

/-- Embedding of `is_same_or_subdomain` (lines 64-69). -/
def is_same_or_subdomain (url domain : String) : Bool :=
  hostnameOf url == domain || endsWithStr (hostnameOf url) ("." ++ domain)

/-! ## Official-site asset crawl (fetch_logos.py lines 238-263)

The network is abstracted by `fetch : String → Option (List String)`
mapping a brand path to the list of `href`/`src` attribute values found
on that page (in document order), or `none` when the page fetch fails. -/

/-- The fixed brand-path list `BRAND_PATHS` (lines 25-28). -/
def BRAND_PATHS : List String :=
  ["brand", "brand-assets", "brandassets", "brand-resources",
   "press", "media", "media-kit", "newsroom", "about", "corporate", "design"]

/-- First-occurrence deduplication with an explicit seen list; with
`seen = []` this is the dedup loop of `candidate_domains` (lines 180-184)
and the membership content of a Python `set`. -/
def dedupAcc (seen : List String) : List String → List String
  | [] => []
  | x :: xs => if x ∈ seen then dedupAcc seen xs else x :: dedupAcc (x :: seen) xs

/-- First-occurrence deduplication. -/
def dedupF (l : List String) : List String := dedupAcc [] l

/-- Embedding of the per-reference body of `find_official_asset_links`
(lines 247-262): empty values are skipped; `//`-references get an
`https:` prefix; `/`-references are joined onto the site root (model of
`urljoin(base, v)` for a root-relative reference); anything else is kept
verbatim (NOT resolved against the page URL); then the host filter and
the `.svg`/`.png` extension filter are applied. -/
def resolveRef (domain v : String) : Option String :=
  if v == "" then none
  else
    let full :=
      if startsWithStr v "//" then "https:" ++ v
      else if startsWithStr v "/" then "https://" ++ domain ++ v
      else v
    if is_same_or_subdomain full domain &&
        (endsWithStr (lowerStr full) ".svg" || endsWithStr (lowerStr full) ".png") then
      some full
    else none

/-- All kept links gathered across the brand paths, in crawl order. -/
def gatherLinks (domain : String) (fetch : String → Option (List String)) : List String :=
  BRAND_PATHS.flatMap fun path =>
    match fetch path with
    | none => []
    | some refs => refs.filterMap (resolveRef domain)

/-- The sort key of line 263: vector (`.svg`) before raster, then URL length. -/
def urlKey (u : String) : Nat × Nat :=
  (if endsWithStr (lowerStr u) ".svg" then 0 else 1, u.data.length)

/-- The ordering induced by `urlKey` (lexicographic). -/
def crawlLe (u v : String) : Prop :=
  (urlKey u).1 < (urlKey v).1 ∨ ((urlKey u).1 = (urlKey v).1 ∧ (urlKey u).2 ≤ (urlKey v).2)

instance : DecidableRel crawlLe := fun u v => by unfold crawlLe; infer_instance

instance : IsTotal String crawlLe := ⟨fun u v => by unfold crawlLe; omega⟩

instance : IsTrans String crawlLe := ⟨fun u v w h1 h2 => by unfold crawlLe at *; omega⟩

/-- Embedding of `find_official_asset_links` (lines 238-263):
`sorted(set(links), key=...)` modelled as a stable insertion sort over
the first-occurrence deduplication (tie order among equal keys is
unspecified by a Python `set`). -/
def find_official_asset_links (domain : String)
    (fetch : String → Option (List String)) : List String :=
  List.insertionSort crawlLe (dedupF (gatherLinks domain fetch))

/-- Modelled from the spec: the resolution rule claimed by the spec,
"resolve relative references against the page URL" (full relative
resolution a la `urljoin`), written for a page URL ending in `/` and a
bare relative path, which is the case exercised by the counterexample.
The source code does NOT do this for references lacking a leading `/`. -/
def spec_resolve (base ref : String) : String := base ++ ref

/-! ## Domain discovery candidates (fetch_logos.py lines 140-185) -/

/-- The fixed TLD list (lines 140-143); `"com"` first, then the other
generic entries, then the country-code entries. -/
def TLDS : List String :=
  ["com", "eu", "net", "org", "io", "co",
   "lt", "pl", "de", "fr", "it", "es", "nl", "se", "cz", "sk", "hu", "dk",
   "be", "at", "ie", "fi", "pt", "ro", "bg", "hr", "si", "lv", "ee", "gr",
   "cy", "lu", "mt"]

/-- The prefix set crossed with tokens (line 144). -/
def BRAND_PREFIXES : List String := ["", "get", "go", "my"]

/-- The suffix set crossed with tokens (line 145). -/
def BRAND_SUFFIXES : List String := ["", "app", "group", "company"]

/-- The diacritic folding table `DIACRITIC_TABLE` (lines 146-150). -/
def translateDiacritic (c : Char) : Char :=
  if c = 'ą' ∨ c = 'Ą' then 'a'
  else if c = 'č' ∨ c = 'Č' ∨ c = 'ć' ∨ c = 'Ć' then 'c'
  else if c = 'ę' ∨ c = 'Ę' ∨ c = 'ė' ∨ c = 'Ė' then 'e'
  else if c = 'į' ∨ c = 'Į' then 'i'
  else if c = 'š' ∨ c = 'Š' ∨ c = 'ś' ∨ c = 'Ś' then 's'
  else if c = 'ų' ∨ c = 'Ų' ∨ c = 'ū' ∨ c = 'Ū' then 'u'
  else if c = 'ž' ∨ c = 'Ž' ∨ c = 'ż' ∨ c = 'Ż' ∨ c = 'ź' ∨ c = 'Ź' then 'z'
  else if c = 'ł' ∨ c = 'Ł' then 'l'
  else if c = 'ń' ∨ c = 'Ń' then 'n'
  else if c = 'ó' ∨ c = 'Ó' then 'o'
  else c

/-- Characters matching `[a-zA-Z0-9]`. -/
def isAsciiAlnum (c : Char) : Bool :=
  (65 ≤ c.toNat && c.toNat ≤ 90) || (97 ≤ c.toNat && c.toNat ≤ 122) ||
    (48 ≤ c.toNat && c.toNat ≤ 57)

/-- Embedding of `normalize_brand_token` (lines 152-155): fold
diacritics, delete every character outside `[a-zA-Z0-9]`, lowercase. -/
def normalize_brand_token (s : String) : String :=
  ⟨((s.data.map translateDiacritic).filter isAsciiAlnum).map pyLowerChar⟩

/-- Model of `re.findall("[a-zA-Z0-9]+", ...)`: the maximal runs of
characters satisfying `p`; `fuel` is instantiated with the length. -/
def runsGo (p : Char → Bool) : Nat → List Char → List (List Char)
  | 0, _ => []
  | _, [] => []
  | fuel+1, c :: cs =>
    if p c then (c :: cs.takeWhile p) :: runsGo p fuel (cs.dropWhile p)
    else runsGo p fuel cs

/-- The alphanumeric runs of a string, as strings. -/
def alnumRuns (s : String) : List String :=
  (runsGo isAsciiAlnum s.data.length s.data).map List.asString

/-- The word tokens of `brand_tokens` (line 159): alphanumeric runs of
the lowercased brand with length at least 3. -/
def brand_words (brand : String) : List String :=
  (alnumRuns (lowerStr brand)).filter (fun w => 3 ≤ w.length)

/-- The `parts` of `brand_tokens` (line 167): all alphanumeric runs of
the lowercased brand. -/
def brandParts (brand : String) : List String := alnumRuns (lowerStr brand)

/-- The token set built by `brand_tokens` (lines 157-172), listed in
Python insertion order and first-occurrence deduplicated.  The Python
function returns `list(set)` whose iteration order is NOT the insertion
order (string hashing is randomized per process), so theorems about
`brand_tokens` quantify over permutations of this list. -/
def tokensSeq (brand : String) : List String :=
  let base := normalize_brand_token brand
  let words := brand_words brand
  let combos := (BRAND_PREFIXES.flatMap fun pre =>
    BRAND_SUFFIXES.map fun suf => pre ++ base ++ suf).filter (fun t => !(t == ""))
  let parts := brandParts brand
  let extra := if 1 < parts.length then
      [String.join (parts.map normalize_brand_token), String.intercalate "-" parts]
    else []
  dedupF ([base] ++ words ++ combos ++ extra)

/-- Embedding of `candidate_domains` (lines 174-185) applied to a given
iteration order `tokens` of the token set: cross every token with every
TLD in order, then deduplicate keeping first occurrences. -/
def candidate_domains (tokens : List String) : List String :=
  dedupF (tokens.flatMap fun t => TLDS.map fun tld => t ++ "." ++ tld)

/-! ## Raster normalization (fetch_logos.py lines 503-519)

`normalize_png` is modelled on a decoded RGBA image (width, height, and
a pixel function; channels 0..255).  Python floats are modelled by exact
rationals; `Image.paste(img, box, img)` uses the alpha band of `img` as
a blend mask on every channel, with the C macro
`MULDIV255(a, b) = ((t >> 8) + t) >> 8` where `t = a*b + 128`.
The resampling kernel of `Image.resize` is abstracted (only the output
dimensions matter to the claims); the model follows the happy path in
which decoding and resizing succeed — on any exception the code returns
the input bytes unchanged. -/

/-- One RGBA pixel, channels in 0..255. -/
structure Pix where
  r : Nat
  g : Nat
  b : Nat
  a : Nat
deriving DecidableEq

/-- A decoded image: dimensions plus a pixel function. -/
structure Img where
  w : Nat
  h : Nat
  px : Nat → Nat → Pix

/-- The canvas constant `PNG_CANVAS` (line 21). -/
def PNG_CANVAS : Nat := 1024

/-- PIL integer blend primitive `MULDIV255`. -/
def muldiv255 (x m : Nat) : Nat :=
  (x * m + 128 + (x * m + 128) / 256) / 256

/-- PIL per-channel blend of source `src` over `dst` under mask `m`. -/
def blendChan (dst src m : Nat) : Nat := muldiv255 dst (255 - m) + muldiv255 src m

/-- Blend one source pixel over a destination pixel using the source
alpha as mask on all four channels, as `Image.paste` with an RGBA mask. -/
def blendPix (dst src : Pix) : Pix :=
  ⟨blendChan dst.r src.r src.a, blendChan dst.g src.g src.a,
   blendChan dst.b src.b src.a, blendChan dst.a src.a src.a⟩

/-- Model of `Image.paste(im, (ox, oy), im)` onto `canvas`. -/
def pasteMask (canvas im : Img) (ox oy : Nat) : Img :=
  { w := canvas.w, h := canvas.h,
    px := fun x y =>
      if ox ≤ x ∧ x < ox + im.w ∧ oy ≤ y ∧ y < oy + im.h then
        blendPix (canvas.px x y) (im.px (x - ox) (y - oy))
      else canvas.px x y }

/-- A fully transparent square canvas, as `Image.new("RGBA", ..., (0,0,0,0))`. -/
def transparentCanvas (size : Nat) : Img := ⟨size, size, fun _ _ => ⟨0, 0, 0, 0⟩⟩

/-- Dimension-level model of `Image.resize`: the sampling kernel is
abstracted by nearest-point lookup (no claim depends on resampled pixel
values). -/
def resizeDims (img : Img) (w2 h2 : Nat) : Img :=
  ⟨w2, h2, fun x y => img.px (x * img.w / w2) (y * img.h / h2)⟩

/-- Python `min` of two rationals (returns the first argument on ties). -/
def pymin (a b : ℚ) : ℚ := if b < a then b else a

/-- The scale of line 509: `min(size / w, size / h, 1.0)`. -/
def scaleOf (w h size : Nat) : ℚ :=
  pymin (pymin ((size : ℚ) / (w : ℚ)) ((size : ℚ) / (h : ℚ))) 1

/-- The resize step of lines 510-512: downscale both dimensions by the
same factor, truncating as Python `int(...)`, only when `scale < 1`. -/
def resizedOf (img : Img) (size : Nat) : Img :=
  let scale := scaleOf img.w img.h size
  if scale < 1 then
    resizeDims img (⌊(img.w : ℚ) * scale⌋).toNat (⌊(img.h : ℚ) * scale⌋).toNat
  else img

/-- Embedding of `normalize_png` (lines 503-519) at the image level:
scale (never above 1), optionally resize, then paste centered (with the
alpha-mask blend of line 514) onto a transparent `size` by `size`
canvas. -/
def normalize_img (img : Img) (size : Nat) : Img :=
  let rimg := resizedOf img size
  pasteMask (transparentCanvas size) rimg ((size - rimg.w) / 2) ((size - rimg.h) / 2)

/-! ## The Source Chain (fetch_logos.py lines 534-676)

Each network-backed provider stage is abstracted by the value it would
return for the brand under resolution: `try_download` per candidate URL
for the official crawl, and one optional `(format, bytes, source URL,
official flag)` result per fallback stage (the social stage always sets
`official = True`, line 569, so its stub carries no flag).  Credential
gating (`BRANDFETCH_KEY`, `GOOGLE_CSE_*`) happens inside the stage
functions, which then return empty, so it is subsumed by a `none` stub.
The conversion helpers `svg_to_png`, `normalize_png` and `jpg_to_png`
are byte-level stubs in the environment.  File writes are modelled as an
ordered list of `(path, bytes)` pairs. -/

/-- Bytes of a downloaded payload. -/
abbrev Blob := List Nat

/-- A fallback-stage result: format, payload, source URL, official flag. -/
abbrev FB := Fmt × Blob × String × Bool

/-- The stages of the source chain, in priority order. -/
inductive Stage
  | official
  | social
  | bfCdn
  | bfApi
  | clearbit
  | wikimedia
  | googleImages
  | simpleIcons
  | googleCse
deriving DecidableEq, Fintype

/-- The fixed priority order of the chain (lines 541-619). -/
def chainOrder : List Stage :=
  [.official, .social, .bfCdn, .bfApi, .clearbit,
   .wikimedia, .googleImages, .simpleIcons, .googleCse]

/-- Stubbed environment for one brand resolution. -/
structure Env where
  links : List String
  download : String → Option (Fmt × Blob × String)
  social : Option (Fmt × Blob × String)
  bfCdn : Option FB
  bfApi : Option FB
  clearbit : Option FB
  wikimedia : Option FB
  googleImages : Option FB
  simpleIcons : Option FB
  googleCse : Option FB
  svg2png : Blob → Option Blob
  normalize : Blob → Blob
  jpg2png : Blob → Blob

/-- The toggle `ENABLE_FALLBACKS` (line 19). -/
def ENABLE_FALLBACKS : Bool := true

/-- One output record (the dict built at lines 535-539). -/
structure Rec where
  brand : String
  slug : String
  domain : Option String
  source_url : Option String
  official : Bool
  saved_svg : Option String
  saved_png : Option String
  notes : Option String
deriving DecidableEq

/-- The initial record of lines 535-539. -/
def initRec (brand : String) (domain : Option String) : Rec :=
  { brand := brand, slug := slugify brand, domain := domain, source_url := none,
    official := false, saved_svg := none, saved_png := none, notes := none }

/-- The note of line 589. -/
def NOTE_EXHAUSTED : String := "No official/site/social logo found."

/-- Python truthiness of `rec.get("source_url")` (line 595). -/
def truthy : Option String → Bool
  | none => false
  | some s => !(s == "")

/-- The raster-archive path `logos/png/<slug>.png` written by several
branches (the f-strings at lines 556-557, 575-576, 585-586 and the
`save_raw` result for raster formats). -/
def pngPath (slug : String) : String := "logos/" ++ "png" ++ "/" ++ slug ++ "." ++ "png"

/-- The path produced by `save_raw` (lines 488-493): format `jpg` is
mapped to extension `png`; rendered as a POSIX path string
`logos/<ext>/<slug>.<ext>`. -/
def save_raw_path (slug : String) (fmt : Fmt) : String :=
  match fmt with
  | .jpg => "logos/" ++ "png" ++ "/" ++ slug ++ "." ++ "png"
  | .svg => "logos/" ++ "svg" ++ "/" ++ slug ++ "." ++ "svg"
  | .png => "logos/" ++ "png" ++ "/" ++ slug ++ "." ++ "png"

/-- A log of file writes: `(path, bytes)` in write order. -/
abbrev Writes := List (String × Blob)

/-- The first link of `links` whose download classifies (the `for u in
links` loop of lines 544-547). -/
def firstDownload (links : List String)
    (dl : String → Option (Fmt × Blob × String)) : Option (Fmt × Blob × String) :=
  match links with
  | [] => none
  | u :: rest =>
    match dl u with
    | some x => some x
    | none => firstDownload rest dl

/-- The shared save-and-record block of the social stage (lines 570-586)
and of the fallback tail (lines 627-643); `source_url` and `official`
are set by the caller. -/
def commonBuild (env : Env) (r : Rec) (fmt : Fmt) (blob : Blob) : Rec × Writes :=
  match fmt with
  | .svg =>
    let p := save_raw_path r.slug .svg
    let r := { r with saved_svg := some p }
    match env.svg2png blob with
    | some png =>
      let png := env.normalize png
      ({ r with saved_png := some (pngPath r.slug) },
        [(p, blob), (pngPath r.slug, png)])
    | none => (r, [(p, blob)])
  | .png =>
    let p := save_raw_path r.slug .png
    let r := { r with saved_png := some p }
    let norm := env.normalize blob
    if norm = blob then (r, [(p, blob)])
    else (r, [(p, blob), (pngPath r.slug, norm)])
  | .jpg =>
    let png := env.normalize (env.jpg2png blob)
    ({ r with saved_png := some (pngPath r.slug) }, [(pngPath r.slug, png)])

/-- The stage-1 record construction (lines 548-563).  Note the `jpg`
case: `save_raw` is called (writing the raw bytes under a `.png` name)
but no saved path is recorded on the record. -/
def officialBuild (env : Env) (r : Rec) (d : String) (fmt : Fmt) (blob : Blob)
    (src : String) : Rec × Writes :=
  let r := { r with source_url := some src, official := is_same_or_subdomain src d }
  let path := save_raw_path r.slug fmt
  match fmt with
  | .svg =>
    let r := { r with saved_svg := some path }
    match env.svg2png blob with
    | some png =>
      let png := env.normalize png
      ({ r with saved_png := some (pngPath r.slug) },
        [(path, blob), (pngPath r.slug, png)])
    | none => (r, [(path, blob)])
  | .png =>
    let r := { r with saved_png := some path }
    let norm := env.normalize blob
    if norm = blob then (r, [(path, blob)])
    else (r, [(path, blob), (pngPath r.slug, norm)])
  | .jpg => (r, [(path, blob)])

/-- The social-stage record construction (lines 567-587). -/
def socialBuild (env : Env) (r : Rec) (fmt : Fmt) (blob : Blob) (src : String) :
    Rec × Writes :=
  commonBuild env { r with source_url := some src, official := true } fmt blob

/-- The fallback record construction (lines 624-643). -/
def fallbackBuild (env : Env) (r : Rec) (fmt : Fmt) (blob : Blob) (src : String)
    (off : Bool) : Rec × Writes :=
  commonBuild env { r with source_url := some src, official := off } fmt blob

/-- Embedding of `pipeline_official_first` (lines 534-590), additionally
returning the write log and the trace of stages invoked. -/
def pipeline_official_first (env : Env) (brand : String) (domain : Option String) :
    Rec × Writes × List Stage :=
  let rec0 := initRec brand domain
  match domain with
  | some d =>
    match firstDownload env.links env.download with
    | some (fmt, blob, src) =>
      let rw := officialBuild env rec0 d fmt blob src
      (rw.1, rw.2, [.official])
    | none =>
      match env.social with
      | some (fmt, blob, src) =>
        let rw := socialBuild env rec0 fmt blob src
        (rw.1, rw.2, [.official, .social])
      | none =>
        ({ rec0 with notes := some NOTE_EXHAUSTED }, [], [.official, .social])
  | none =>
    match env.social with
    | some (fmt, blob, src) =>
      let rw := socialBuild env rec0 fmt blob src
      (rw.1, rw.2, [.social])
    | none =>
      ({ rec0 with notes := some NOTE_EXHAUSTED }, [], [.social])

/-- The gated fallback ladder of lines 599-619 as a list of
`(stage, gate, stubbed result)` items in source order: the three
domain-keyed vendors run only under `ENABLE_FALLBACKS and domain`, the
rest under `ENABLE_FALLBACKS`. -/
def fallbackItems (env : Env) (hasDomain : Bool) : List (Stage × Bool × Option FB) :=
  [(.bfCdn, ENABLE_FALLBACKS && hasDomain, env.bfCdn),
   (.bfApi, ENABLE_FALLBACKS && hasDomain, env.bfApi),
   (.clearbit, ENABLE_FALLBACKS && hasDomain, env.clearbit),
   (.wikimedia, ENABLE_FALLBACKS, env.wikimedia),
   (.googleImages, ENABLE_FALLBACKS, env.googleImages),
   (.simpleIcons, ENABLE_FALLBACKS, env.simpleIcons),
   (.googleCse, ENABLE_FALLBACKS, env.googleCse)]

/-- Run gated stages in order until the first non-empty result,
recording which stages were invoked. -/
def scanStages : List (Stage × Bool × Option FB) → Option (Stage × FB) × List Stage
  | [] => (none, [])
  | (s, g, res) :: rest =>
    if g then
      match res with
      | some x => (some (s, x), [s])
      | none =>
        let rt := scanStages rest
        (rt.1, s :: rt.2)
    else scanStages rest

/-- Embedding of `pipeline_with_fallbacks` (lines 593-645), with write
log and invocation trace. -/
def pipeline_with_fallbacks (env : Env) (brand : String) (domain : Option String) :
    Rec × Writes × List Stage :=
  let o := pipeline_official_first env brand domain
  if truthy o.1.source_url then o
  else
    let ft := scanStages (fallbackItems env domain.isSome)
    match ft.1 with
    | none => (o.1, o.2.1, o.2.2 ++ ft.2)
    | some (_, (fmt, blob, src, off)) =>
      let rw := fallbackBuild env o.1 fmt blob src off
      (rw.1, o.2.1 ++ rw.2, o.2.2 ++ ft.2)

/-- Whether a stage would yield a non-empty result in `env`. -/
def stageHit (env : Env) : Stage → Bool
  | .official => (firstDownload env.links env.download).isSome
  | .social => env.social.isSome
  | .bfCdn => env.bfCdn.isSome
  | .bfApi => env.bfApi.isSome
  | .clearbit => env.clearbit.isSome
  | .wikimedia => env.wikimedia.isSome
  | .googleImages => env.googleImages.isSome
  | .simpleIcons => env.simpleIcons.isSome
  | .googleCse => env.googleCse.isSome

/-- The source URL a stage would report in `env`. -/
def stageSrc (env : Env) : Stage → Option String
  | .official => (firstDownload env.links env.download).map (fun x => x.2.2)
  | .social => env.social.map (fun x => x.2.2)
  | .bfCdn => env.bfCdn.map (fun x => x.2.2.1)
  | .bfApi => env.bfApi.map (fun x => x.2.2.1)
  | .clearbit => env.clearbit.map (fun x => x.2.2.1)
  | .wikimedia => env.wikimedia.map (fun x => x.2.2.1)
  | .googleImages => env.googleImages.map (fun x => x.2.2.1)
  | .simpleIcons => env.simpleIcons.map (fun x => x.2.2.1)
  | .googleCse => env.googleCse.map (fun x => x.2.2.1)

/-- The fallback stub of `env` for a stage (fallback stages only). -/
def stageFB (env : Env) : Stage → Option FB
  | .official => none
  | .social => none
  | .bfCdn => env.bfCdn
  | .bfApi => env.bfApi
  | .clearbit => env.clearbit
  | .wikimedia => env.wikimedia
  | .googleImages => env.googleImages
  | .simpleIcons => env.simpleIcons
  | .googleCse => env.googleCse

/-- Every stage of `env` reports empty. -/
def allStagesEmpty (env : Env) : Prop := ∀ st : Stage, stageHit env st = false

/-- No stage of `env` reports an empty source URL (an invariant of the
real stages: a successful `requests` response always carries its URL). -/
def wfEnv (env : Env) : Prop := ∀ st : Stage, stageSrc env st ≠ some ""

/-- Embedding of the batch loop of `main` (lines 658-676): one record
per non-blank brand row, in input order; the aggregate metadata document
is the returned list.  Entity lookup and domain discovery (lines
649-650) are abstracted by `envOf` and `domainOf`. -/
def mainModel (rows : List String) (envOf : String → Env)
    (domainOf : String → Option String) : List Rec :=
  ((rows.map pyStrip).filter (fun b => !(b == ""))).map
    (fun b => (pipeline_with_fallbacks (envOf b) b (domainOf b)).1)

/-! ## Concrete objects used by witnesses and counterexamples -/

/-- An environment in which every stage reports empty. -/
def envEmpty : Env :=
  { links := [], download := fun _ => none, social := none, bfCdn := none,
    bfApi := none, clearbit := none, wikimedia := none, googleImages := none,
    simpleIcons := none, googleCse := none, svg2png := fun _ => none,
    normalize := fun b => b, jpg2png := fun b => b }

/-- An environment in which only the Simple Icons stage succeeds. -/
def envSimple : Env :=
  { envEmpty with
    simpleIcons := some (Fmt.svg, [60, 115, 118, 103],
      "https://cdn.simpleicons.org/acme", false) }

/-- An environment in which the official crawl downloads a JPEG and the
social and Brandfetch CDN stages would also succeed. -/
def envJpg : Env :=
  { envEmpty with
    links := ["https://ex.com/logo.jpg"],
    download := fun u =>
      if u == "https://ex.com/logo.jpg" then
        some (Fmt.jpg, [255, 216, 255, 0], "https://ex.com/logo.jpg")
      else none,
    social := some (Fmt.png, [137, 80, 78, 71], "https://www.facebook.com/acme"),
    bfCdn := some (Fmt.png, [137, 80, 78, 71], "https://cdn.brandfetch.io/ex.com", true) }

/-- A 2048 by 1024 fully opaque test image. -/
def imgWide : Img := ⟨2048, 1024, fun _ _ => ⟨0, 0, 0, 255⟩⟩

/-- A canvas-sized fully opaque constant image. -/
def imgFix : Img := ⟨1024, 1024, fun _ _ => ⟨10, 20, 30, 255⟩⟩

/-- A canvas-sized half-transparent constant image. -/
def imgSemi : Img := ⟨1024, 1024, fun _ _ => ⟨128, 128, 128, 128⟩⟩

/-- The page table of the C3 counterexample: the `brand` page carries
one relative reference without a leading slash. -/
def fetchRel : String → Option (List String) :=
  fun p => if p == "brand" then some ["img/logo.svg"] else none

/-- A page table whose `brand` page carries well-formed references. -/
def fetchGood : String → Option (List String) :=
  fun p => if p == "brand" then some ["/a.png", "/bb.svg", "/c.svg", ""] else none

/-! ## Lemmas about `collapseRuns`, `stripDashes` and `slugify` -/

theorem collapseRuns_cons_neg (p : Char → Bool) (d : Char) (rest : List Char)
    (hd : p d = false) : collapseRuns p (d :: rest) = d :: collapseRuns p rest := by
  cases rest with
  | nil => simp [collapseRuns, hd]
  | cons e rest => simp [collapseRuns, hd]

theorem mem_collapseRuns {p : Char → Bool} {l : List Char} {c : Char}
    (h : c ∈ collapseRuns p l) : c = '-' ∨ (p c = false ∧ c ∈ l) := by
  induction l with
  | nil => simp [collapseRuns] at h
  | cons a cs ih =>
    cases cs with
    | nil =>
      rcases hp : p a with _ | _
      · simp [collapseRuns, hp] at h
        subst h
        exact Or.inr ⟨hp, by simp⟩
      · simp [collapseRuns, hp] at h
        exact Or.inl h
    | cons d rest =>
      rw [collapseRuns] at h
      by_cases h1 : (p a && p d) = true
      · rw [if_pos h1] at h
        rcases ih h with hl | ⟨hf, hm⟩
        · exact Or.inl hl
        · exact Or.inr ⟨hf, List.mem_cons_of_mem _ hm⟩
      · rw [if_neg h1] at h
        rcases List.mem_cons.mp h with hh | ht
        · rcases hp : p a with _ | _
          · rw [hp] at hh
            simp at hh
            subst hh
            exact Or.inr ⟨hp, by simp⟩
          · rw [hp] at hh
            simp at hh
            exact Or.inl hh
        · rcases ih ht with hl | ⟨hf, hm⟩
          · exact Or.inl hl
          · exact Or.inr ⟨hf, List.mem_cons_of_mem _ hm⟩

theorem chain'_collapseRuns (p : Char → Bool) (l : List Char) :
    List.Chain' (fun a b => ¬(p a = true ∧ p b = true)) (collapseRuns p l) := by
  induction l with
  | nil => simp [collapseRuns]
  | cons a cs ih =>
    cases cs with
    | nil =>
      rcases hp : p a with _ | _ <;> simp [collapseRuns, hp]
    | cons d rest =>
      rw [collapseRuns]
      by_cases h1 : (p a && p d) = true
      · rw [if_pos h1]
        exact ih
      · rw [if_neg h1]
        rw [List.chain'_cons']
        refine ⟨?_, ih⟩
        intro y hy
        rcases hpa : p a with _ | _
        · simp [hpa]
        · have hpd : p d = false := by
            rcases hpd : p d with _ | _
            · rfl
            · exact absurd (by rw [hpa, hpd]; rfl) h1
          rw [collapseRuns_cons_neg p d rest hpd] at hy
          simp at hy
          subst hy
          simp [hpd]

theorem collapseRuns_eq_self {p : Char → Bool} {l : List Char}
    (hc : ∀ c ∈ l, p c = true → c = '-')
    (hch : List.Chain' (fun a b => ¬(p a = true ∧ p b = true)) l) :
    collapseRuns p l = l := by
  induction l with
  | nil => simp [collapseRuns]
  | cons a cs ih =>
    cases cs with
    | nil =>
      rcases hp : p a with _ | _
      · simp [collapseRuns, hp]
      · have ha := hc a (by simp) hp
        simp [collapseRuns, hp, ha]
    | cons d rest =>
      have h2 := (List.chain'_cons.mp hch).1
      have h3 := (List.chain'_cons.mp hch).2
      have h1 : ¬((p a && p d) = true) := by
        rw [Bool.and_eq_true]
        exact h2
      rw [collapseRuns, if_neg h1]
      have tl := ih (fun c hcm hpc => hc c (List.mem_cons_of_mem _ hcm) hpc) h3
      rcases hpa : p a with _ | _
      · simp [tl]
      · have ha := hc a (by simp) hpa
        simp [tl, ha]

theorem head?_dropWhile {α : Type} (p : α → Bool) (l : List α) {c : α}
    (h : (l.dropWhile p).head? = some c) : p c = false := by
  induction l with
  | nil => simp [List.dropWhile] at h
  | cons a cs ih =>
    rcases hp : p a with _ | _
    · rw [List.dropWhile_cons, if_neg (by simp [hp])] at h
      simp at h
      subst h
      exact hp
    · rw [List.dropWhile_cons, if_pos (by simp [hp])] at h
      exact ih h

theorem dropWhile_eq_self {α : Type} {p : α → Bool} {l : List α}
    (h : ∀ c, l.head? = some c → p c = false) : l.dropWhile p = l := by
  cases l with
  | nil => rfl
  | cons a cs =>
    have := h a rfl
    rw [List.dropWhile_cons, if_neg (by simp [this])]

theorem stripDashes_noEdge (l : List Char) :
    (stripDashes l).head? ≠ some '-' ∧ (stripDashes l).getLast? ≠ some '-' := by
  unfold stripDashes
  constructor
  · rw [List.head?_reverse]
    cases hBe : (l.dropWhile (fun c => c == '-')).reverse.dropWhile (fun c => c == '-') with
    | nil => simp
    | cons b bs =>
      obtain ⟨t, ht⟩ := List.dropWhile_suffix
        (l := (l.dropWhile (fun c => c == '-')).reverse) (fun c : Char => c == '-')
      rw [← hBe]
      have hne : (l.dropWhile (fun c => c == '-')).reverse.dropWhile (fun c => c == '-') ≠ [] := by
        rw [hBe]
        simp
      have hg : ((l.dropWhile (fun c => c == '-')).reverse.dropWhile (fun c => c == '-')).getLast?
          = (l.dropWhile (fun c => c == '-')).reverse.getLast? := by
        conv_rhs => rw [← ht]
        rw [List.getLast?_append_of_ne_nil t hne]
      rw [hg, List.getLast?_reverse]
      intro hcon
      have := head?_dropWhile (fun c : Char => c == '-') l hcon
      simp at this
  · rw [List.getLast?_reverse]
    intro hcon
    have := head?_dropWhile (fun c : Char => c == '-') _ hcon
    simp at this

theorem stripDashes_subset (l : List Char) : stripDashes l ⊆ l := by
  intro c hc
  unfold stripDashes at hc
  rw [List.mem_reverse] at hc
  have h1 := (List.dropWhile_sublist (fun c : Char => c == '-')).subset hc
  rw [List.mem_reverse] at h1
  exact (List.dropWhile_sublist (fun c : Char => c == '-')).subset h1

theorem stripDashes_chain' {R : Char → Char → Prop} (hsym : ∀ a b, R a b → R b a)
    {l : List Char} (h : List.Chain' R l) : List.Chain' R (stripDashes l) := by
  unfold stripDashes
  have h1 : List.Chain' R (l.dropWhile (fun c => c == '-')) :=
    h.suffix (List.dropWhile_suffix _)
  have h2 : List.Chain' R (l.dropWhile (fun c => c == '-')).reverse :=
    List.chain'_reverse.mpr (h1.imp (fun a b hr => hsym a b hr))
  have h3 : List.Chain' R
      ((l.dropWhile (fun c => c == '-')).reverse.dropWhile (fun c => c == '-')) :=
    h2.suffix (List.dropWhile_suffix _)
  exact List.chain'_reverse.mpr (h3.imp (fun a b hr => hsym a b hr))

theorem stripDashes_eq_self {l : List Char} (h1 : l.head? ≠ some '-')
    (h2 : l.getLast? ≠ some '-') : stripDashes l = l := by
  unfold stripDashes
  have e1 : l.dropWhile (fun c => c == '-') = l := by
    apply dropWhile_eq_self
    intro c hc
    have : c ≠ '-' := fun he => h1 (he ▸ hc)
    simpa using this
  rw [e1]
  have e2 : l.reverse.dropWhile (fun c => c == '-') = l.reverse := by
    apply dropWhile_eq_self
    intro c hc
    rw [List.head?_reverse] at hc
    have : c ≠ '-' := fun he => h2 (he ▸ hc)
    simpa using this
  rw [e2, List.reverse_reverse]

theorem pyLowerChar_fix {c : Char} (h : isLowerAlnum c = true ∨ c = '-') :
    pyLowerChar c = c := by
  rcases h with h | h
  · simp only [isLowerAlnum, Bool.or_eq_true, Bool.and_eq_true, decide_eq_true_eq] at h
    rw [pyLowerChar, if_neg (by omega)]
  · subst h
    decide

theorem slug2_eq_slug1 (l : List Char) :
    collapseRuns (fun c => c == '-') (collapseRuns (fun c => !isLowerAlnum c) l) =
      collapseRuns (fun c => !isLowerAlnum c) l := by
  apply collapseRuns_eq_self
  · intro c _ hpc
    simpa using hpc
  · apply (chain'_collapseRuns (fun c => !isLowerAlnum c) l).imp
    intro a b hr
    rintro ⟨x, y⟩
    simp at x y
    subst x
    subst y
    exact hr ⟨by decide, by decide⟩

theorem slugChars_eq (l : List Char) :
    slugChars l =
      stripDashes (collapseRuns (fun c => !isLowerAlnum c) (l.map pyLowerChar)) := by
  unfold slugChars
  rw [slug2_eq_slug1]

theorem slugify_data (s : String) : (slugify s).data = slugChars s.data := rfl

theorem slug_mem {s : String} {c : Char} (h : c ∈ (slugify s).data) :
    isLowerAlnum c = true ∨ c = '-' := by
  rw [slugify_data, slugChars_eq] at h
  have h2 := stripDashes_subset _ h
  rcases mem_collapseRuns h2 with hd | ⟨hf, _⟩
  · exact Or.inr hd
  · simp at hf
    exact Or.inl hf

theorem slug_chain' (s : String) :
    List.Chain' (fun a b => ¬((!isLowerAlnum a) = true ∧ (!isLowerAlnum b) = true))
      (slugify s).data := by
  rw [slugify_data, slugChars_eq]
  exact stripDashes_chain' (fun a b hr => fun ⟨x, y⟩ => hr ⟨y, x⟩)
    (chain'_collapseRuns _ _)

theorem slug_noEdge (s : String) :
    (slugify s).data.head? ≠ some '-' ∧ (slugify s).data.getLast? ≠ some '-' := by
  rw [slugify_data, slugChars_eq]
  exact stripDashes_noEdge _

theorem slug_idem (s : String) : slugify (slugify s) = slugify s := by
  have hmem : ∀ c ∈ (slugify s).data, isLowerAlnum c = true ∨ c = '-' :=
    fun c hc => slug_mem hc
  have hch := slug_chain' s
  have hle := slug_noEdge s
  have hmap : (slugify s).data.map pyLowerChar = (slugify s).data := by
    have : (slugify s).data.map pyLowerChar = (slugify s).data.map id :=
      List.map_congr_left (fun c hc => pyLowerChar_fix (hmem c hc))
    rw [this, List.map_id]
  have h1 : collapseRuns (fun c => !isLowerAlnum c) (slugify s).data = (slugify s).data := by
    apply collapseRuns_eq_self
    · intro c hcm hpc
      rcases hmem c hcm with ha | hd
      · rw [ha] at hpc
        simp at hpc
      · exact hd
    · exact hch
  have h2 : collapseRuns (fun c => c == '-') (slugify s).data = (slugify s).data := by
    apply collapseRuns_eq_self
    · intro c _ hpc
      simpa using hpc
    · apply hch.imp
      intro a b hr
      rintro ⟨x, y⟩
      simp at x y
      subst x
      subst y
      exact hr ⟨by decide, by decide⟩
  have h3 : stripDashes (slugify s).data = (slugify s).data :=
    stripDashes_eq_self hle.1 hle.2
  show (⟨slugChars (slugify s).data⟩ : String) = slugify s
  unfold slugChars
  rw [hmap, h1, h2, h3]

/-- Claim C7: slugify is a pure deterministic function of the brand string
and is idempotent; its output contains only lowercase alphanumerics and
hyphens (every run of other characters was collapsed to one hyphen, so no
two hyphens are adjacent), with no leading or trailing hyphen. -/
theorem c7_slugify (x : String) :
    slugify (slugify x) = slugify x ∧
    (∀ c ∈ (slugify x).data, isLowerAlnum c = true ∨ c = '-') ∧
    List.Chain' (fun a b => ¬(a = '-' ∧ b = '-')) (slugify x).data ∧
    (slugify x).data.head? ≠ some '-' ∧ (slugify x).data.getLast? ≠ some '-' := by
  refine ⟨slug_idem x, fun c hc => slug_mem hc, ?_, slug_noEdge x⟩
  apply (slug_chain' x).imp
  intro a b hr
  rintro ⟨x1, y1⟩
  subst x1
  subst y1
  exact hr ⟨by decide, by decide⟩

/-- Claim C7 witness: idempotence and output shape at a concrete brand. -/
theorem c7_witness :
    slugify (slugify "Acme Rockets!!") = slugify "Acme Rockets!!" ∧
    slugify "Acme Rockets!!" = "acme-rockets" :=
  ⟨(c7_slugify "Acme Rockets!!").1, by decide⟩

/-! ## Claim C2: the content classifier -/

/-- Claim C2 counterexample: a payload of plain text bytes (`"hello"`,
which contains no vector-markup prolog or root vector element) served
with declared type `image/svg+xml` IS classified vector — so the
classifier does assign a format on the basis of the declared transport
content type alone, contradicting the claim that a payload is classified
vector only when its first bytes contain vector markup. -/
theorem c2_counterexample :
    classify [104, 101, 108, 108, 111] "image/svg+xml" = some Fmt.svg ∧
    is_svg_bytes [104, 101, 108, 108, 111] = false := by
  constructor
  · decide
  · decide

/-- Claim C2 (corrected): the classifier accepts a format when EITHER
the bytes match OR the declared type mentions it — vector when the bytes
sniff as SVG or the type contains `image/svg`; raster when (not vector
and) the PNG magic matches or the type contains `image/png`; photo when
(neither of the above and) the type contains `image/jpeg` or the JPEG
magic matches; and the download is discarded exactly when neither the
bytes nor the declared type are recognized. -/
theorem c2_classifier_amended (data : List Nat) (ctype : String) :
    (classify data ctype = some Fmt.svg ↔
      (is_svg_bytes data || containsSub "image/svg".data (ctypeLower ctype)) = true) ∧
    (classify data ctype = some Fmt.png ↔
      (is_svg_bytes data || containsSub "image/svg".data (ctypeLower ctype)) = false ∧
      (is_png_bytes data || containsSub "image/png".data (ctypeLower ctype)) = true) ∧
    (classify data ctype = some Fmt.jpg ↔
      (is_svg_bytes data || containsSub "image/svg".data (ctypeLower ctype)) = false ∧
      (is_png_bytes data || containsSub "image/png".data (ctypeLower ctype)) = false ∧
      (containsSub "image/jpeg".data (ctypeLower ctype) || is_jpg_bytes data) = true) ∧
    (classify data ctype = none ↔
      (is_svg_bytes data || containsSub "image/svg".data (ctypeLower ctype)) = false ∧
      (is_png_bytes data || containsSub "image/png".data (ctypeLower ctype)) = false ∧
      (containsSub "image/jpeg".data (ctypeLower ctype) || is_jpg_bytes data) = false) := by
  unfold classify
  rcases h1 : is_svg_bytes data || containsSub "image/svg".data (ctypeLower ctype) with _ | _ <;>
    rcases h2 : is_png_bytes data || containsSub "image/png".data (ctypeLower ctype) with _ | _ <;>
      rcases h3 : containsSub "image/jpeg".data (ctypeLower ctype) || is_jpg_bytes data with _ | _ <;>
        simp [h1, h2, h3]

/-- Claim C2 witness: the amended classification evaluated on the PNG
magic header with an empty declared type. -/
theorem c2_witness : classify [137, 80, 78, 71, 13, 10] "" = some Fmt.png :=
  ((c2_classifier_amended [137, 80, 78, 71, 13, 10] "").2.1).mpr (by decide)

/-! ## Lemmas about canvas normalization -/

theorem pymin_le_left (a b : ℚ) : pymin a b ≤ a := by
  unfold pymin
  split
  · exact le_of_lt (by assumption)
  · exact le_refl a

theorem pymin_le_right (a b : ℚ) : pymin a b ≤ b := by
  unfold pymin
  split
  · exact le_refl b
  · exact le_of_not_lt (by assumption)

theorem scaleOf_le_one (w h size : Nat) : scaleOf w h size ≤ 1 :=
  pymin_le_right _ _

theorem scaleOf_le_w (w h size : Nat) : scaleOf w h size ≤ (size : ℚ) / (w : ℚ) :=
  le_trans (pymin_le_left _ _) (pymin_le_left _ _)

theorem scaleOf_le_h (w h size : Nat) : scaleOf w h size ≤ (size : ℚ) / (h : ℚ) :=
  le_trans (pymin_le_left _ _) (pymin_le_right _ _)

theorem floor_scale_le_self (w : Nat) (q : ℚ) (hq : q ≤ 1) :
    (⌊(w : ℚ) * q⌋).toNat ≤ w := by
  rw [Int.toNat_le]
  calc ⌊(w : ℚ) * q⌋ ≤ ⌊(w : ℚ)⌋ :=
        Int.floor_le_floor (mul_le_of_le_one_right (by positivity) hq)
    _ = (w : ℤ) := Int.floor_natCast w

theorem floor_scale_le_size (w size : Nat) (hw : 0 < w) (q : ℚ)
    (hq : q ≤ (size : ℚ) / (w : ℚ)) : (⌊(w : ℚ) * q⌋).toNat ≤ size := by
  rw [Int.toNat_le]
  have hw0 : ((w : ℚ)) ≠ 0 := by positivity
  have : (w : ℚ) * q ≤ (size : ℚ) := by
    calc (w : ℚ) * q ≤ (w : ℚ) * ((size : ℚ) / (w : ℚ)) :=
          mul_le_mul_of_nonneg_left hq (by positivity)
      _ = (size : ℚ) := by field_simp
  calc ⌊(w : ℚ) * q⌋ ≤ ⌊(size : ℚ)⌋ := Int.floor_le_floor this
    _ = (size : ℤ) := Int.floor_natCast size

theorem resizedOf_w_le (img : Img) (size : Nat) : (resizedOf img size).w ≤ img.w := by
  unfold resizedOf
  dsimp only
  split
  · exact floor_scale_le_self _ _ (scaleOf_le_one _ _ _)
  · exact le_refl _

theorem resizedOf_h_le (img : Img) (size : Nat) : (resizedOf img size).h ≤ img.h := by
  unfold resizedOf
  dsimp only
  split
  · exact floor_scale_le_self _ _ (scaleOf_le_one _ _ _)
  · exact le_refl _

theorem resizedOf_w_le_size (img : Img) (size : Nat) (hw : 0 < img.w) :
    (resizedOf img size).w ≤ size := by
  unfold resizedOf
  dsimp only
  split
  · exact floor_scale_le_size _ _ hw _ (scaleOf_le_w _ _ _)
  · rename_i hns
    have h1 : (1 : ℚ) ≤ scaleOf img.w img.h size := le_of_not_lt hns
    have h2 : (1 : ℚ) ≤ (size : ℚ) / (img.w : ℚ) := le_trans h1 (scaleOf_le_w _ _ _)
    have h3 : (img.w : ℚ) ≤ (size : ℚ) := by
      rw [one_le_div (by exact_mod_cast hw)] at h2
      exact h2
    exact_mod_cast h3

theorem resizedOf_h_le_size (img : Img) (size : Nat) (hh : 0 < img.h) :
    (resizedOf img size).h ≤ size := by
  unfold resizedOf
  dsimp only
  split
  · exact floor_scale_le_size _ _ hh _ (scaleOf_le_h _ _ _)
  · rename_i hns
    have h1 : (1 : ℚ) ≤ scaleOf img.w img.h size := le_of_not_lt hns
    have h2 : (1 : ℚ) ≤ (size : ℚ) / (img.h : ℚ) := le_trans h1 (scaleOf_le_h _ _ _)
    have h3 : (img.h : ℚ) ≤ (size : ℚ) := by
      rw [one_le_div (by exact_mod_cast hh)] at h2
      exact h2
    exact_mod_cast h3

theorem normalize_img_w (img : Img) (size : Nat) : (normalize_img img size).w = size := rfl

theorem normalize_img_h (img : Img) (size : Nat) : (normalize_img img size).h = size := rfl

theorem normalize_img_px (img : Img) (size : Nat) (x y : Nat) :
    (normalize_img img size).px x y =
      (if (size - (resizedOf img size).w) / 2 ≤ x ∧
          x < (size - (resizedOf img size).w) / 2 + (resizedOf img size).w ∧
          (size - (resizedOf img size).h) / 2 ≤ y ∧
          y < (size - (resizedOf img size).h) / 2 + (resizedOf img size).h then
        blendPix ⟨0, 0, 0, 0⟩
          ((resizedOf img size).px (x - (size - (resizedOf img size).w) / 2)
            (y - (size - (resizedOf img size).h) / 2))
      else ⟨0, 0, 0, 0⟩) := rfl

theorem muldiv255_opaque {x : Nat} (h : x ≤ 255) : muldiv255 x 255 = x := by
  unfold muldiv255
  omega

theorem muldiv255_zero (m : Nat) : muldiv255 0 m = 0 := by
  simp [muldiv255]

theorem blendPix_opaque {p : Pix} (hr : p.r ≤ 255) (hg : p.g ≤ 255) (hb : p.b ≤ 255)
    (ha : p.a = 255) : blendPix ⟨0, 0, 0, 0⟩ p = p := by
  cases p with
  | mk r g b a =>
    simp only at hr hg hb ha
    subst ha
    simp [blendPix, blendChan, muldiv255_zero, muldiv255_opaque, hr, hg, hb]

theorem scaleOf_eq_one {w h size : Nat} (hw : w = size) (hh : h = size)
    (hs : 0 < size) : scaleOf w h size = 1 := by
  subst hw
  subst hh
  unfold scaleOf pymin
  rw [div_self (by positivity)]
  norm_num

theorem resizedOf_eq_self {img : Img} {size : Nat}
    (h : scaleOf img.w img.h size = 1) : resizedOf img size = img := by
  unfold resizedOf
  dsimp only
  rw [h]
  norm_num

/-- Claim C4: whenever the raster-normalization capability is available
and the input decodes, `normalize_png` computes
`scale = min(canvas/width, canvas/height, 1.0)`, never upscales (the
resized dimensions stay at or below the originals), resizes both axes by
the same factor when `scale < 1` (aspect preserved up to integer
truncation) and leaves the image untouched otherwise, and outputs an
image of exactly `canvas` by `canvas` pixels (1024) with the possibly
resized input pasted centered (margins balanced to within one pixel) on
a transparent canvas. -/
theorem c4_normalize_png (img : Img) (h1 : 0 < img.w) (h2 : 0 < img.h) :
    (normalize_img img PNG_CANVAS).w = PNG_CANVAS ∧
    (normalize_img img PNG_CANVAS).h = PNG_CANVAS ∧
    scaleOf img.w img.h PNG_CANVAS ≤ 1 ∧
    (resizedOf img PNG_CANVAS).w ≤ img.w ∧
    (resizedOf img PNG_CANVAS).h ≤ img.h ∧
    (scaleOf img.w img.h PNG_CANVAS < 1 →
      (resizedOf img PNG_CANVAS).w =
          (⌊(img.w : ℚ) * scaleOf img.w img.h PNG_CANVAS⌋).toNat ∧
      (resizedOf img PNG_CANVAS).h =
          (⌊(img.h : ℚ) * scaleOf img.w img.h PNG_CANVAS⌋).toNat) ∧
    (¬ scaleOf img.w img.h PNG_CANVAS < 1 → resizedOf img PNG_CANVAS = img) ∧
    ((PNG_CANVAS - (resizedOf img PNG_CANVAS).w) / 2 ≤
        PNG_CANVAS - (resizedOf img PNG_CANVAS).w -
          (PNG_CANVAS - (resizedOf img PNG_CANVAS).w) / 2 ∧
      PNG_CANVAS - (resizedOf img PNG_CANVAS).w -
          (PNG_CANVAS - (resizedOf img PNG_CANVAS).w) / 2 ≤
        (PNG_CANVAS - (resizedOf img PNG_CANVAS).w) / 2 + 1) ∧
    ((PNG_CANVAS - (resizedOf img PNG_CANVAS).h) / 2 ≤
        PNG_CANVAS - (resizedOf img PNG_CANVAS).h -
          (PNG_CANVAS - (resizedOf img PNG_CANVAS).h) / 2 ∧
      PNG_CANVAS - (resizedOf img PNG_CANVAS).h -
          (PNG_CANVAS - (resizedOf img PNG_CANVAS).h) / 2 ≤
        (PNG_CANVAS - (resizedOf img PNG_CANVAS).h) / 2 + 1) ∧
    (∀ x y : Nat, (normalize_img img PNG_CANVAS).px x y =
      if (PNG_CANVAS - (resizedOf img PNG_CANVAS).w) / 2 ≤ x ∧
          x < (PNG_CANVAS - (resizedOf img PNG_CANVAS).w) / 2 +
                (resizedOf img PNG_CANVAS).w ∧
          (PNG_CANVAS - (resizedOf img PNG_CANVAS).h) / 2 ≤ y ∧
          y < (PNG_CANVAS - (resizedOf img PNG_CANVAS).h) / 2 +
                (resizedOf img PNG_CANVAS).h then
        blendPix ⟨0, 0, 0, 0⟩
          ((resizedOf img PNG_CANVAS).px
            (x - (PNG_CANVAS - (resizedOf img PNG_CANVAS).w) / 2)
            (y - (PNG_CANVAS - (resizedOf img PNG_CANVAS).h) / 2))
      else ⟨0, 0, 0, 0⟩) := by
  have hwle := resizedOf_w_le_size img PNG_CANVAS h1
  have hhle := resizedOf_h_le_size img PNG_CANVAS h2
  refine ⟨rfl, rfl, scaleOf_le_one _ _ _, resizedOf_w_le img PNG_CANVAS,
    resizedOf_h_le img PNG_CANVAS, ?_, ?_, by omega, by omega,
    fun x y => normalize_img_px img PNG_CANVAS x y⟩
  · intro hlt
    unfold resizedOf
    dsimp only
    rw [if_pos hlt]
    exact ⟨rfl, rfl⟩
  · intro hge
    unfold resizedOf
    dsimp only
    rw [if_neg hge]

/-- Claim C4 witness: the theorem applied to a concrete opaque 2048 by
1024 image. -/
theorem c4_witness :
    0 < imgWide.w ∧ 0 < imgWide.h ∧
    (normalize_img imgWide PNG_CANVAS).w = PNG_CANVAS ∧
    (normalize_img imgWide PNG_CANVAS).h = PNG_CANVAS ∧
    (resizedOf imgWide PNG_CANVAS).w ≤ imgWide.w :=
  ⟨by decide, by decide, (c4_normalize_png imgWide (by decide) (by decide)).1,
    (c4_normalize_png imgWide (by decide) (by decide)).2.1,
    (c4_normalize_png imgWide (by decide) (by decide)).2.2.2.1⟩

/-- Claim C6 counterexample: a constant half-transparent image that is
already exactly canvas-sized (1024 by 1024) and centered is NOT left
unchanged by normalization: pasting with the image itself as alpha mask
attenuates every channel (128 becomes 64 at pixel (0,0)), so the output
differs from the input even though scale is 1 and the offsets are 0. -/
theorem c6_counterexample :
    imgSemi.w = PNG_CANVAS ∧ imgSemi.h = PNG_CANVAS ∧
    (normalize_img imgSemi PNG_CANVAS).px 0 0 ≠ imgSemi.px 0 0 := by
  refine ⟨rfl, rfl, ?_⟩
  have hr : resizedOf imgSemi PNG_CANVAS = imgSemi :=
    resizedOf_eq_self (scaleOf_eq_one rfl rfl (by norm_num [PNG_CANVAS]))
  rw [normalize_img_px, hr]
  rw [if_pos (by norm_num [imgSemi, PNG_CANVAS])]
  decide

/-- Claim C6 (corrected): normalizing an already-canvas-sized image
clamps the scale to 1.0, performs no resize and pastes at zero offsets;
the output pixel equals the input pixel wherever the input is fully
opaque — but not in general (see the counterexample: the paste uses the
alpha band as a blend mask, attenuating semi-transparent pixels), so
"the output is unchanged from the input" holds only for fully opaque
images. -/
theorem c6_canvas_fixed_point_amended (img : Img)
    (hw : img.w = PNG_CANVAS) (hh : img.h = PNG_CANVAS)
    (hbound : ∀ x y : Nat, (img.px x y).r ≤ 255 ∧ (img.px x y).g ≤ 255 ∧
      (img.px x y).b ≤ 255 ∧ (img.px x y).a ≤ 255) :
    scaleOf img.w img.h PNG_CANVAS = 1 ∧
    resizedOf img PNG_CANVAS = img ∧
    (PNG_CANVAS - (resizedOf img PNG_CANVAS).w) / 2 = 0 ∧
    (PNG_CANVAS - (resizedOf img PNG_CANVAS).h) / 2 = 0 ∧
    (∀ x y : Nat, x < PNG_CANVAS → y < PNG_CANVAS → (img.px x y).a = 255 →
      (normalize_img img PNG_CANVAS).px x y = img.px x y) := by
  have hs : scaleOf img.w img.h PNG_CANVAS = 1 :=
    scaleOf_eq_one hw hh (by norm_num [PNG_CANVAS])
  have hr : resizedOf img PNG_CANVAS = img := resizedOf_eq_self hs
  refine ⟨hs, hr, by rw [hr, hw]; simp, by rw [hr, hh]; simp, ?_⟩
  intro x y hx hy ha
  rw [normalize_img_px, hr, hw, hh]
  rw [if_pos (by omega)]
  simp only [Nat.sub_sub_self, Nat.sub_self]
  have hb := hbound x y
  rw [Nat.sub_zero, Nat.sub_zero]
  exact blendPix_opaque hb.1 hb.2.1 hb.2.2.1 ha

/-- Claim C6 witness: the amended fixed-point behavior at a concrete
fully opaque canvas-sized image. -/
theorem c6_witness :
    imgFix.w = PNG_CANVAS ∧
    (normalize_img imgFix PNG_CANVAS).px 5 7 = imgFix.px 5 7 :=
  ⟨by decide,
    (c6_canvas_fixed_point_amended imgFix (by decide) (by decide)
      (fun x y => by simp [imgFix])).2.2.2.2 5 7 (by decide) (by decide) (by decide)⟩

/-! ## Lemmas about deduplication and the official-site crawl -/

theorem mem_dedupAcc {x : String} : ∀ (l seen : List String),
    x ∈ dedupAcc seen l ↔ (x ∈ l ∧ x ∉ seen)
  | [], seen => by simp [dedupAcc]
  | a :: as, seen => by
    unfold dedupAcc
    by_cases ha : a ∈ seen
    · rw [if_pos ha, mem_dedupAcc as seen]
      constructor
      · rintro ⟨h1, h2⟩
        exact ⟨List.mem_cons_of_mem _ h1, h2⟩
      · rintro ⟨h1, h2⟩
        rcases List.mem_cons.mp h1 with rfl | h1
        · exact absurd ha h2
        · exact ⟨h1, h2⟩
    · rw [if_neg ha, List.mem_cons, mem_dedupAcc as (a :: seen)]
      constructor
      · rintro (rfl | ⟨h1, h2⟩)
        · exact ⟨List.mem_cons_self _ _, ha⟩
        · exact ⟨List.mem_cons_of_mem _ h1, fun hc => h2 (List.mem_cons_of_mem _ hc)⟩
      · rintro ⟨h1, h2⟩
        by_cases hx : x = a
        · exact Or.inl hx
        · rcases List.mem_cons.mp h1 with rfl | h1
          · exact absurd rfl hx
          · refine Or.inr ⟨h1, fun hc => ?_⟩
            rcases List.mem_cons.mp hc with rfl | hc
            · exact hx rfl
            · exact h2 hc

theorem nodup_dedupAcc : ∀ (l seen : List String), (dedupAcc seen l).Nodup
  | [], seen => by simp [dedupAcc]
  | a :: as, seen => by
    unfold dedupAcc
    by_cases ha : a ∈ seen
    · rw [if_pos ha]
      exact nodup_dedupAcc as seen
    · rw [if_neg ha]
      refine List.Nodup.cons ?_ (nodup_dedupAcc as (a :: seen))
      intro hc
      exact ((mem_dedupAcc as (a :: seen)).mp hc).2 (List.mem_cons_self _ _)

theorem dedupAcc_eq_self : ∀ (l seen : List String), l.Nodup →
    (∀ x ∈ l, x ∉ seen) → dedupAcc seen l = l
  | [], _, _, _ => rfl
  | a :: as, seen, hnd, hdisj => by
    unfold dedupAcc
    rw [if_neg (hdisj a (List.mem_cons_self _ _))]
    congr 1
    apply dedupAcc_eq_self as (a :: seen) (List.Nodup.of_cons hnd)
    intro x hx hc
    rcases List.mem_cons.mp hc with rfl | hc
    · exact (List.nodup_cons.mp hnd).1 hx
    · exact hdisj x (List.mem_cons_of_mem _ hx) hc

theorem mem_dedupF {x : String} {l : List String} : x ∈ dedupF l ↔ x ∈ l := by
  unfold dedupF
  rw [mem_dedupAcc]
  simp

theorem nodup_dedupF (l : List String) : (dedupF l).Nodup := nodup_dedupAcc l []

theorem ite_some_eq {α : Type} {C : Prop} [Decidable C] {x u : α}
    (h : (if C then some x else none) = some u) : C ∧ u = x := by
  split at h
  · injection h with h
    exact ⟨by assumption, h.symm⟩
  · exact absurd h (by simp)

theorem resolveRef_some {d v u : String} (h : resolveRef d v = some u) :
    is_same_or_subdomain u d = true ∧
    (endsWithStr (lowerStr u) ".svg" || endsWithStr (lowerStr u) ".png") = true := by
  unfold resolveRef at h
  split at h
  · exact absurd h (by simp)
  · dsimp only at h
    obtain ⟨hcond, rfl⟩ := ite_some_eq h
    exact ⟨((Bool.and_eq_true ..).mp hcond).1, ((Bool.and_eq_true ..).mp hcond).2⟩

theorem mem_gatherLinks {d u : String} {fetch : String → Option (List String)} :
    u ∈ gatherLinks d fetch ↔
      ∃ p ∈ BRAND_PATHS, ∃ refs, fetch p = some refs ∧
        ∃ v ∈ refs, resolveRef d v = some u := by
  unfold gatherLinks
  rw [List.mem_flatMap]
  constructor
  · rintro ⟨p, hp, hu⟩
    cases hf : fetch p with
    | none =>
      rw [hf] at hu
      simp at hu
    | some refs =>
      rw [hf] at hu
      rw [List.mem_filterMap] at hu
      obtain ⟨v, hv, hres⟩ := hu
      exact ⟨p, hp, refs, hf, v, hv, hres⟩
  · rintro ⟨p, hp, refs, hf, v, hv, hres⟩
    refine ⟨p, hp, ?_⟩
    rw [hf, List.mem_filterMap]
    exact ⟨v, hv, hres⟩

theorem mem_find_official {domain u : String} {fetch : String → Option (List String)} :
    u ∈ find_official_asset_links domain fetch ↔ u ∈ gatherLinks domain fetch := by
  unfold find_official_asset_links
  rw [(List.perm_insertionSort crawlLe _).mem_iff, mem_dedupF]

/-- Claim C3 counterexample: a brand page carrying the relative reference
`img/logo.svg` (no leading slash).  The claim says every reference is
resolved against the page URL and this one would then pass both the host
filter and the extension filter; the code instead keeps it verbatim, the
host check fails, and the crawl returns no candidates at all. -/
theorem c3_counterexample :
    find_official_asset_links "ex.com" fetchRel = [] ∧
    fetchRel "brand" = some ["img/logo.svg"] ∧
    spec_resolve "https://ex.com/brand/" "img/logo.svg" =
      "https://ex.com/brand/img/logo.svg" ∧
    is_same_or_subdomain "https://ex.com/brand/img/logo.svg" "ex.com" = true ∧
    endsWithStr (lowerStr "https://ex.com/brand/img/logo.svg") ".svg" = true := by
  exact ⟨by decide, by decide, by decide, by decide, by decide⟩

/-- Claim C3 (corrected): scheme-relative (`//`) references get an
`https:` scheme and root-relative (`/`) references are joined onto the
site root, but any other reference is kept verbatim — a relative
reference without a leading slash is NOT resolved against the page URL
(it then fails the host filter and is dropped).  Every kept candidate
has a host equal to or a subdomain of the brand domain and a
`.svg`/`.png` extension, and the final list is sorted vector-first, then
by ascending URL length. -/
theorem c3_crawl_amended (domain : String) (fetch : String → Option (List String)) :
    List.Sorted crawlLe (find_official_asset_links domain fetch) ∧
    (∀ u ∈ find_official_asset_links domain fetch,
      is_same_or_subdomain u domain = true ∧
      (endsWithStr (lowerStr u) ".svg" || endsWithStr (lowerStr u) ".png") = true) ∧
    (∀ u, u ∈ find_official_asset_links domain fetch ↔
      ∃ p ∈ BRAND_PATHS, ∃ refs, fetch p = some refs ∧
        ∃ v ∈ refs, resolveRef domain v = some u) := by
  refine ⟨List.sorted_insertionSort crawlLe _, ?_, ?_⟩
  · intro u hu
    obtain ⟨p, _, refs, _, v, _, hres⟩ :=
      mem_gatherLinks.mp (mem_find_official.mp hu)
    exact resolveRef_some hres
  · intro u
    rw [mem_find_official, mem_gatherLinks]

/-- Claim C3 witness: the amended crawl properties at a concrete site. -/
theorem c3_witness :
    List.Sorted crawlLe (find_official_asset_links "ex.com" fetchGood) ∧
    is_same_or_subdomain "https://ex.com/bb.svg" "ex.com" = true :=
  ⟨(c3_crawl_amended "ex.com" fetchGood).1,
    ((c3_crawl_amended "ex.com" fetchGood).2.1 "https://ex.com/bb.svg" (by decide)).1⟩

/-! ## Lemmas about domain-candidate generation -/

theorem takeWhile_no_dot : ∀ (t a : List Char), (∀ c ∈ t, c ≠ '.') →
    (t ++ '.' :: a).takeWhile (fun c => !(c == '.')) = t
  | [], a, _ => by simp [List.takeWhile_cons]
  | c :: ts, a, h => by
    have hc : c ≠ '.' := h c (List.mem_cons_self _ _)
    rw [List.cons_append, List.takeWhile_cons, if_pos (by simpa using hc)]
    rw [takeWhile_no_dot ts a (fun x hx => h x (List.mem_cons_of_mem _ hx))]

theorem dot_split {t1 t2 a b : String}
    (h1 : ∀ c ∈ t1.data, c ≠ '.') (h2 : ∀ c ∈ t2.data, c ≠ '.')
    (heq : t1 ++ "." ++ a = t2 ++ "." ++ b) : t1 = t2 ∧ a = b := by
  have hd : t1.data ++ '.' :: a.data = t2.data ++ '.' :: b.data := by
    have := congrArg String.data heq
    simpa [String.data_append] using this
  have ht : t1.data = t2.data := by
    have e1 := takeWhile_no_dot t1.data a.data h1
    have e2 := takeWhile_no_dot t2.data b.data h2
    rw [← e1, ← e2, hd]
  refine ⟨String.ext ht, ?_⟩
  rw [ht] at hd
  have := List.append_cancel_left hd
  injection this with _ hab
  exact String.ext hab

theorem tlds_no_dot : ∀ tld ∈ TLDS, ∀ c ∈ tld.data, c ≠ '.' := by decide

theorem nodup_candList {tokens : List String} (hnd : tokens.Nodup)
    (hnodot : ∀ t ∈ tokens, ∀ c ∈ t.data, c ≠ '.') :
    (tokens.flatMap fun t => TLDS.map fun tld => t ++ "." ++ tld).Nodup := by
  rw [List.nodup_flatMap]
  constructor
  · intro t ht
    apply List.Nodup.map_on
    · intro x hx y hy hxy
      exact (dot_split (hnodot t ht) (hnodot t ht) hxy).2
    · decide
  · apply hnd.imp_of_mem
    intro t1 t2 ht1 ht2 hne
    intro x hx1 hx2
    simp only [Function.onFun, List.mem_map] at hx1 hx2
    obtain ⟨a, _, rfl⟩ := hx1
    obtain ⟨b, _, hb⟩ := hx2
    exact hne (dot_split (hnodot t1 ht1) (hnodot t2 ht2) hb.symm).1

theorem candidate_domains_eq_flatMap {tokens : List String} (hnd : tokens.Nodup)
    (hnodot : ∀ t ∈ tokens, ∀ c ∈ t.data, c ≠ '.') :
    candidate_domains tokens =
      tokens.flatMap fun t => TLDS.map fun tld => t ++ "." ++ tld := by
  unfold candidate_domains dedupF
  exact dedupAcc_eq_self _ [] (nodup_candList hnd hnodot) (by simp)

theorem pair_sublist_candidates {tokens : List String} (hnd : tokens.Nodup)
    (hnodot : ∀ t ∈ tokens, ∀ c ∈ t.data, c ≠ '.') {t : String} (ht : t ∈ tokens)
    {tld : String} (htld : tld ∈ TLDS) (hne : tld ≠ "com") :
    List.Sublist [t ++ "." ++ "com", t ++ "." ++ tld] (candidate_domains tokens) := by
  rw [candidate_domains_eq_flatMap hnd hnodot]
  obtain ⟨s, t2, rfl⟩ := List.append_of_mem ht
  rw [List.flatMap_append, List.flatMap_cons]
  have hsub : List.Sublist ["com", tld] TLDS := by
    have hmem : tld ∈ TLDS.tail := by
      rcases List.mem_cons.mp htld with rfl | h
      · exact absurd rfl hne
      · exact h
    exact List.cons_sublist_cons.mpr (List.singleton_sublist.mpr hmem)
  have hblock := hsub.map (fun tld => t ++ "." ++ tld)
  refine hblock.trans (List.Sublist.trans ?_ (List.sublist_append_right
    (s.flatMap (fun t => TLDS.map fun tld => t ++ "." ++ tld)) _))
  exact List.sublist_append_left _ _

theorem indexOf_lt_of_pair {α : Type} [DecidableEq α] {a b : α} :
    ∀ {l : List α}, List.Sublist [a, b] l → l.Nodup →
      l.indexOf a < l.indexOf b := by
  intro l
  induction l with
  | nil => intro h; cases h
  | cons c cs ih =>
    intro h hnd
    have hcne : c ∉ cs := (List.nodup_cons.mp hnd).1
    cases h with
    | cons _ h2 =>
      have hbmem : b ∈ cs := h2.subset (by simp)
      have hbc : b ≠ c := fun he => hcne (he ▸ hbmem)
      by_cases hac : c = a
      · subst hac
        rw [List.indexOf_cons_self, List.indexOf_cons_ne _ (fun he => hbc he.symm)]
        exact Nat.succ_pos _
      · rw [List.indexOf_cons_ne _ hac, List.indexOf_cons_ne _ (fun he => hbc he.symm)]
        exact Nat.succ_lt_succ (ih h2 (List.nodup_cons.mp hnd).2)
    | cons₂ _ h2 =>
      have hbmem : b ∈ cs := List.singleton_sublist.mp h2
      have hba : b ≠ a := fun he => hcne (he ▸ hbmem)
      rw [List.indexOf_cons_self, List.indexOf_cons_ne _ (fun he => hba he.symm)]
      exact Nat.succ_pos _

/-- Claim C5 counterexample: `brand_tokens` returns `list(set(...))`, and
a Python set of strings iterates in an order that depends on per-process
hash randomization, so two runs may present the token set in different
orders; two valid iteration orders of the very same token set (here: the
insertion order and its reverse) produce different candidate lists, so
the candidate ordering is NOT identical across repeated runs. -/
theorem c5_counterexample :
    ((tokensSeq "Acme Rockets").reverse).Perm (tokensSeq "Acme Rockets") ∧
    candidate_domains ((tokensSeq "Acme Rockets").reverse) ≠
      candidate_domains (tokensSeq "Acme Rockets") := by
  refine ⟨List.reverse_perm _, ?_⟩
  intro h
  have h2 := congrArg List.head? h
  rw [show (candidate_domains ((tokensSeq "Acme Rockets").reverse)).head? =
        some "acme-rockets.com" from by decide,
      show (candidate_domains (tokensSeq "Acme Rockets")).head? =
        some "acmerockets.com" from by decide] at h2
  simp at h2

/-- Claim C5 (corrected): for every iteration order of the token set of
`"Acme Rockets"`, the candidate list contains both `acmerockets.com` and
`acme-rockets.com`, and each appears before every other-TLD variant
(hence before every country-code variant) of the same base token,
because the TLD list is crossed in fixed order with `com` first; but the
ordering is only deterministic GIVEN the token-set iteration order — it
is not stable across runs, because `list(set(...))` order varies with
Python string-hash randomization (see the counterexample). -/
theorem c5_candidate_domains_amended (perm : List String)
    (hp : perm.Perm (tokensSeq "Acme Rockets")) :
    "acmerockets.com" ∈ candidate_domains perm ∧
    "acme-rockets.com" ∈ candidate_domains perm ∧
    (∀ tld ∈ TLDS, tld ≠ "com" →
      List.indexOf "acmerockets.com" (candidate_domains perm) <
        List.indexOf ("acmerockets." ++ tld) (candidate_domains perm) ∧
      List.indexOf "acme-rockets.com" (candidate_domains perm) <
        List.indexOf ("acme-rockets." ++ tld) (candidate_domains perm)) := by
  have hnd : perm.Nodup := hp.nodup_iff.mpr (by decide)
  have hnodotSeq : ∀ t ∈ tokensSeq "Acme Rockets", ∀ c ∈ t.data, c ≠ '.' := by decide
  have hnodot : ∀ t ∈ perm, ∀ c ∈ t.data, c ≠ '.' :=
    fun t ht => hnodotSeq t (hp.mem_iff.mp ht)
  have ht1 : "acmerockets" ∈ perm := hp.mem_iff.mpr (by decide)
  have ht2 : "acme-rockets" ∈ perm := hp.mem_iff.mpr (by decide)
  have hcnd : (candidate_domains perm).Nodup := by
    rw [candidate_domains_eq_flatMap hnd hnodot]
    exact nodup_candList hnd hnodot
  have e1 : "acmerockets" ++ "." ++ "com" = "acmerockets.com" := by decide
  have e2 : "acme-rockets" ++ "." ++ "com" = "acme-rockets.com" := by decide
  have e3 : ∀ tld : String, "acmerockets" ++ "." ++ tld = "acmerockets." ++ tld :=
    fun tld => congrArg (fun s => s ++ tld) (by decide : "acmerockets" ++ "." = "acmerockets.")
  have e4 : ∀ tld : String, "acme-rockets" ++ "." ++ tld = "acme-rockets." ++ tld :=
    fun tld => congrArg (fun s => s ++ tld) (by decide : "acme-rockets" ++ "." = "acme-rockets.")
  refine ⟨?_, ?_, ?_⟩
  · rw [← e1, candidate_domains_eq_flatMap hnd hnodot, List.mem_flatMap]
    exact ⟨"acmerockets", ht1, List.mem_map.mpr ⟨"com", by decide, rfl⟩⟩
  · rw [← e2, candidate_domains_eq_flatMap hnd hnodot, List.mem_flatMap]
    exact ⟨"acme-rockets", ht2, List.mem_map.mpr ⟨"com", by decide, rfl⟩⟩
  · intro tld htld hne
    constructor
    · have := indexOf_lt_of_pair
        (pair_sublist_candidates hnd hnodot ht1 htld hne) hcnd
      rwa [e1, e3 tld] at this
    · have := indexOf_lt_of_pair
        (pair_sublist_candidates hnd hnodot ht2 htld hne) hcnd
      rwa [e2, e4 tld] at this

/-- Claim C5 witness: the amended properties at the insertion-order
iteration of the token set. -/
theorem c5_witness :
    "acmerockets.com" ∈ candidate_domains (tokensSeq "Acme Rockets") ∧
    "acme-rockets.com" ∈ candidate_domains (tokensSeq "Acme Rockets") ∧
    List.indexOf "acmerockets.com" (candidate_domains (tokensSeq "Acme Rockets")) <
      List.indexOf "acmerockets.lt" (candidate_domains (tokensSeq "Acme Rockets")) := by
  have h := c5_candidate_domains_amended (tokensSeq "Acme Rockets") (List.Perm.refl _)
  refine ⟨h.1, h.2.1, ?_⟩
  have h2 := (h.2.2 "lt" (by decide) (by decide)).1
  rwa [show ("acmerockets." ++ "lt") = "acmerockets.lt" from by decide] at h2

/-! ## Lemmas about the pipeline embedding -/

theorem commonBuild_source_url (env : Env) (r : Rec) (fmt : Fmt) (blob : Blob) :
    (commonBuild env r fmt blob).1.source_url = r.source_url := by
  cases fmt with
  | svg =>
    unfold commonBuild
    dsimp only
    cases env.svg2png blob <;> rfl
  | png =>
    unfold commonBuild
    dsimp only
    split <;> rfl
  | jpg => rfl

theorem commonBuild_official (env : Env) (r : Rec) (fmt : Fmt) (blob : Blob) :
    (commonBuild env r fmt blob).1.official = r.official := by
  cases fmt with
  | svg =>
    unfold commonBuild
    dsimp only
    cases env.svg2png blob <;> rfl
  | png =>
    unfold commonBuild
    dsimp only
    split <;> rfl
  | jpg => rfl

theorem commonBuild_notes (env : Env) (r : Rec) (fmt : Fmt) (blob : Blob) :
    (commonBuild env r fmt blob).1.notes = r.notes := by
  cases fmt with
  | svg =>
    unfold commonBuild
    dsimp only
    cases env.svg2png blob <;> rfl
  | png =>
    unfold commonBuild
    dsimp only
    split <;> rfl
  | jpg => rfl

theorem commonBuild_brand (env : Env) (r : Rec) (fmt : Fmt) (blob : Blob) :
    (commonBuild env r fmt blob).1.brand = r.brand := by
  cases fmt with
  | svg =>
    unfold commonBuild
    dsimp only
    cases env.svg2png blob <;> rfl
  | png =>
    unfold commonBuild
    dsimp only
    split <;> rfl
  | jpg => rfl

theorem socialBuild_source_url (env : Env) (r : Rec) (fmt : Fmt) (blob : Blob)
    (src : String) : (socialBuild env r fmt blob src).1.source_url = some src := by
  unfold socialBuild
  rw [commonBuild_source_url]

theorem socialBuild_brand (env : Env) (r : Rec) (fmt : Fmt) (blob : Blob)
    (src : String) : (socialBuild env r fmt blob src).1.brand = r.brand := by
  unfold socialBuild
  rw [commonBuild_brand]

theorem fallbackBuild_source_url (env : Env) (r : Rec) (fmt : Fmt) (blob : Blob)
    (src : String) (off : Bool) :
    (fallbackBuild env r fmt blob src off).1.source_url = some src := by
  unfold fallbackBuild
  rw [commonBuild_source_url]

theorem fallbackBuild_notes (env : Env) (r : Rec) (fmt : Fmt) (blob : Blob)
    (src : String) (off : Bool) :
    (fallbackBuild env r fmt blob src off).1.notes = r.notes := by
  unfold fallbackBuild
  rw [commonBuild_notes]

theorem fallbackBuild_brand (env : Env) (r : Rec) (fmt : Fmt) (blob : Blob)
    (src : String) (off : Bool) :
    (fallbackBuild env r fmt blob src off).1.brand = r.brand := by
  unfold fallbackBuild
  rw [commonBuild_brand]

theorem officialBuild_source_url (env : Env) (r : Rec) (d : String) (fmt : Fmt)
    (blob : Blob) (src : String) :
    (officialBuild env r d fmt blob src).1.source_url = some src := by
  cases fmt with
  | svg =>
    unfold officialBuild
    dsimp only
    cases env.svg2png blob <;> rfl
  | png =>
    unfold officialBuild
    dsimp only
    split <;> rfl
  | jpg => rfl

theorem officialBuild_brand (env : Env) (r : Rec) (d : String) (fmt : Fmt)
    (blob : Blob) (src : String) :
    (officialBuild env r d fmt blob src).1.brand = r.brand := by
  cases fmt with
  | svg =>
    unfold officialBuild
    dsimp only
    cases env.svg2png blob <;> rfl
  | png =>
    unfold officialBuild
    dsimp only
    split <;> rfl
  | jpg => rfl

theorem scanStages_trace_sublist : ∀ items : List (Stage × Bool × Option FB),
    (scanStages items).2.Sublist (items.map fun x => x.1)
  | [] => List.Sublist.refl []
  | (s, g, res) :: rest => by
    unfold scanStages
    by_cases hg : g
    · rw [if_pos hg]
      cases res with
      | some x =>
        dsimp only
        exact List.cons_sublist_cons.mpr (List.nil_sublist _)
      | none =>
        dsimp only
        exact List.cons_sublist_cons.mpr (scanStages_trace_sublist rest)
    · rw [if_neg hg]
      exact (scanStages_trace_sublist rest).trans (List.sublist_cons_self _ _)

theorem scanStages_some (env : Env) : ∀ items : List (Stage × Bool × Option FB),
    (∀ x ∈ items, x.2.2 = stageFB env x.1) → ∀ s fb,
    (scanStages items).1 = some (s, fb) →
      stageFB env s = some fb ∧
      ∃ pre, (scanStages items).2 = pre ++ [s] ∧
        ∀ s2 ∈ pre, stageFB env s2 = none
  | [] => by
    intro _ s fb h
    simp [scanStages] at h
  | (s0, g, res) :: rest => by
    intro hfaith s fb h
    have hf0 : res = stageFB env s0 := hfaith (s0, g, res) (List.mem_cons_self _ _)
    unfold scanStages at h ⊢
    by_cases hg : g
    · rw [if_pos hg] at h ⊢
      cases hres : res with
      | some x =>
        rw [hres] at h
        dsimp only at h ⊢
        injection h with h
        injection h with h1 h2
        subst h1
        subst h2
        refine ⟨by rw [← hf0, hres], [], rfl, by simp⟩
      | none =>
        rw [hres] at h
        dsimp only at h ⊢
        obtain ⟨hfb, pre, htr, hpre⟩ :=
          scanStages_some env rest (fun x hx => hfaith x (List.mem_cons_of_mem _ hx)) s fb h
        refine ⟨hfb, s0 :: pre, by rw [htr]; rfl, ?_⟩
        intro s2 hs2
        rcases List.mem_cons.mp hs2 with rfl | hs2
        · rw [← hf0, hres]
        · exact hpre s2 hs2
    · rw [if_neg hg] at h ⊢
      exact scanStages_some env rest (fun x hx => hfaith x (List.mem_cons_of_mem _ hx)) s fb h

theorem scanStages_none (env : Env) : ∀ items : List (Stage × Bool × Option FB),
    (∀ x ∈ items, x.2.2 = stageFB env x.1) →
    (scanStages items).1 = none →
    ∀ s ∈ (scanStages items).2, stageFB env s = none
  | [] => by
    intro _ _ s hs
    simp [scanStages] at hs
  | (s0, g, res) :: rest => by
    intro hfaith h s hs
    have hf0 : res = stageFB env s0 := hfaith (s0, g, res) (List.mem_cons_self _ _)
    unfold scanStages at h hs
    by_cases hg : g
    · rw [if_pos hg] at h hs
      cases hres : res with
      | some x =>
        rw [hres] at h
        dsimp only at h
        exact absurd h (by simp)
      | none =>
        rw [hres] at h hs
        dsimp only at h hs
        rcases List.mem_cons.mp hs with rfl | hs
        · rw [← hf0, hres]
        · exact scanStages_none env rest
            (fun x hx => hfaith x (List.mem_cons_of_mem _ hx)) h s hs
    · rw [if_neg hg] at h hs
      exact scanStages_none env rest
        (fun x hx => hfaith x (List.mem_cons_of_mem _ hx)) h s hs

theorem scanStages_full : ∀ items : List (Stage × Bool × Option FB),
    (∀ x ∈ items, x.2.1 = true) →
    (scanStages items).1 = none →
    (scanStages items).2 = items.map fun x => x.1
  | [] => by
    intro _ _
    rfl
  | (s0, g, res) :: rest => by
    intro hg h
    have hg0 : g = true := hg (s0, g, res) (List.mem_cons_self _ _)
    unfold scanStages at h ⊢
    rw [if_pos hg0] at h ⊢
    cases hres : res with
    | some x =>
      rw [hres] at h
      dsimp only at h
      exact absurd h (by simp)
    | none =>
      rw [hres] at h
      dsimp only at h ⊢
      rw [List.map_cons]
      congr 1
      exact scanStages_full rest (fun x hx => hg x (List.mem_cons_of_mem _ hx)) h

theorem stageHit_fb (env : Env) : ∀ st ∈ [Stage.bfCdn, Stage.bfApi, Stage.clearbit,
    Stage.wikimedia, Stage.googleImages, Stage.simpleIcons, Stage.googleCse],
    stageHit env st = (stageFB env st).isSome := by
  intro st hst
  fin_cases hst <;> rfl

theorem stageSrc_fb (env : Env) : ∀ st ∈ [Stage.bfCdn, Stage.bfApi, Stage.clearbit,
    Stage.wikimedia, Stage.googleImages, Stage.simpleIcons, Stage.googleCse],
    stageSrc env st = (stageFB env st).map (fun x => x.2.2.1) := by
  intro st hst
  fin_cases hst <;> rfl

theorem fallbackItems_faithful (env : Env) (hasDomain : Bool) :
    ∀ x ∈ fallbackItems env hasDomain, x.2.2 = stageFB env x.1 := by
  intro x hx
  simp [fallbackItems] at hx
  rcases hx with rfl | rfl | rfl | rfl | rfl | rfl | rfl <;> rfl

theorem fallback_scan_props (env : Env) (hasDomain : Bool) :
    (∀ s fb, (scanStages (fallbackItems env hasDomain)).1 = some (s, fb) →
      stageHit env s = true ∧ stageSrc env s = some fb.2.2.1 ∧
      ∃ pre, (scanStages (fallbackItems env hasDomain)).2 = pre ++ [s] ∧
        ∀ s2 ∈ pre, stageHit env s2 = false) ∧
    ((scanStages (fallbackItems env hasDomain)).1 = none →
      ∀ s ∈ (scanStages (fallbackItems env hasDomain)).2, stageHit env s = false) ∧
    (scanStages (fallbackItems env hasDomain)).2.Sublist
      [Stage.bfCdn, Stage.bfApi, Stage.clearbit, Stage.wikimedia,
       Stage.googleImages, Stage.simpleIcons, Stage.googleCse] := by
  have hfaith := fallbackItems_faithful env hasDomain
  have hsub : (scanStages (fallbackItems env hasDomain)).2.Sublist
      [Stage.bfCdn, Stage.bfApi, Stage.clearbit, Stage.wikimedia,
       Stage.googleImages, Stage.simpleIcons, Stage.googleCse] :=
    scanStages_trace_sublist (fallbackItems env hasDomain)
  refine ⟨?_, ?_, hsub⟩
  · intro s fb hsome
    obtain ⟨hfb, pre, htr, hpre⟩ := scanStages_some env _ hfaith s fb hsome
    have hsmem : s ∈ [Stage.bfCdn, Stage.bfApi, Stage.clearbit, Stage.wikimedia,
        Stage.googleImages, Stage.simpleIcons, Stage.googleCse] := by
      apply hsub.subset
      rw [htr]
      exact List.mem_append_right _ (by simp)
    refine ⟨?_, ?_, pre, htr, ?_⟩
    · rw [stageHit_fb env s hsmem, hfb]
      rfl
    · rw [stageSrc_fb env s hsmem, hfb]
      rfl
    · intro s2 hs2
      have hm2 : s2 ∈ [Stage.bfCdn, Stage.bfApi, Stage.clearbit, Stage.wikimedia,
          Stage.googleImages, Stage.simpleIcons, Stage.googleCse] := by
        apply hsub.subset
        rw [htr]
        exact List.mem_append_left _ hs2
      rw [stageHit_fb env s2 hm2, hpre s2 hs2]
      rfl
  · intro hnone s hs
    have h0 := scanStages_none env _ hfaith hnone s hs
    rw [stageHit_fb env s (hsub.subset hs), h0]
    rfl

theorem fallbackItems_gates (env : Env) :
    ∀ x ∈ fallbackItems env true, x.2.1 = true := by
  intro x hx
  simp [fallbackItems, ENABLE_FALLBACKS] at hx
  rcases hx with rfl | rfl | rfl | rfl | rfl | rfl | rfl <;> rfl

/-- Claim C1: the Source Chain executes its stages strictly in the fixed
priority order (official crawl, social preview, Brandfetch CDN,
Brandfetch API, Clearbit, Wikimedia, Google Images, Simple Icons, Google
CSE) and stops at the first stage returning a non-empty asset: the
invocation trace is a sublist of the priority order (so no stage runs
twice and order is respected); whenever an invoked stage would succeed,
it is the last stage invoked, every stage invoked before it fails, and
the source URL of the record is the result of that stage (no later stage
overrides it); and when a domain is known and no stage succeeds, every
stage of the chain is invoked, in order.  Well-formedness: real stages
never report an empty source URL. -/
theorem c1_source_chain (env : Env) (brand : String) (domain : Option String)
    (hwf : wfEnv env) :
    ((pipeline_with_fallbacks env brand domain).2.2).Sublist chainOrder ∧
    (∀ s, s ∈ (pipeline_with_fallbacks env brand domain).2.2 →
      stageHit env s = true →
      (∃ pre, (pipeline_with_fallbacks env brand domain).2.2 = pre ++ [s] ∧
        ∀ s2 ∈ pre, stageHit env s2 = false) ∧
      (pipeline_with_fallbacks env brand domain).1.source_url = stageSrc env s) ∧
    (domain.isSome = true → (∀ s, stageHit env s = false) →
      (pipeline_with_fallbacks env brand domain).2.2 = chainOrder) := by
  unfold pipeline_with_fallbacks pipeline_official_first
  cases domain with
  | some d =>
    dsimp only
    cases hfd : firstDownload env.links env.download with
    | some x =>
      obtain ⟨fmt, blob, src⟩ := x
      dsimp only
      have hsst : stageSrc env Stage.official = some src := by
        simp [stageSrc, hfd]
      have hne : src ≠ "" := fun he => hwf Stage.official (by rw [hsst, he])
      have htru : truthy (officialBuild env (initRec brand (some d))
          d fmt blob src).1.source_url = true := by
        rw [officialBuild_source_url]
        simp [truthy, hne]
      rw [if_pos htru]
      refine ⟨(by decide : List.Sublist [Stage.official] chainOrder), ?_, ?_⟩
      · intro s hs hhit
        have hs2 : s = Stage.official := by simpa using hs
        subst hs2
        refine ⟨⟨[], rfl, by simp⟩, ?_⟩
        rw [officialBuild_source_url, hsst]
      · intro _ hall
        have h0 := hall Stage.official
        simp [stageHit, hfd] at h0
    | none =>
      dsimp only
      cases hsoc : env.social with
      | some x =>
        obtain ⟨fmt, blob, src⟩ := x
        dsimp only
        have hsst : stageSrc env Stage.social = some src := by
          simp [stageSrc, hsoc]
        have hne : src ≠ "" := fun he => hwf Stage.social (by rw [hsst, he])
        have htru : truthy (socialBuild env (initRec brand (some d))
            fmt blob src).1.source_url = true := by
          rw [socialBuild_source_url]
          simp [truthy, hne]
        rw [if_pos htru]
        refine ⟨(by decide : List.Sublist [Stage.official, Stage.social] chainOrder), ?_, ?_⟩
        · intro s hs hhit
          have hs2 : s = Stage.official ∨ s = Stage.social := by simpa using hs
          rcases hs2 with rfl | rfl
          · simp [stageHit, hfd] at hhit
          · refine ⟨⟨[Stage.official], rfl, ?_⟩, ?_⟩
            · intro s2 hs2
              have : s2 = Stage.official := by simpa using hs2
              subst this
              simp [stageHit, hfd]
            · rw [socialBuild_source_url, hsst]
        · intro _ hall
          have h0 := hall Stage.social
          simp [stageHit, hsoc] at h0
      | none =>
        dsimp only
        rw [if_neg (fun hcon : truthy _ = true => by
          rw [show truthy ({ initRec brand (some d) with
            notes := some NOTE_EXHAUSTED } : Rec).source_url = false from rfl] at hcon
          exact Bool.false_ne_true hcon)]
        simp only [Option.isSome_some]
        have props := fallback_scan_props env true
        cases hscan : (scanStages (fallbackItems env true)).1 with
        | some p =>
          obtain ⟨s1, fmt, blob, src, off⟩ := p
          dsimp only
          obtain ⟨hhit1, hsrc1, pre, htr2, hpre⟩ := props.1 s1 (fmt, blob, src, off) hscan
          refine ⟨?_, ?_, ?_⟩
          · rw [htr2]
            exact List.Sublist.append_left (htr2 ▸ props.2.2) [Stage.official, Stage.social]
          · intro s hs hhit
            rcases List.mem_append.mp hs with hl | hr
            · rcases (by simpa using hl : s = Stage.official ∨ s = Stage.social) with rfl | rfl
              · simp [stageHit, hfd] at hhit
              · simp [stageHit, hsoc] at hhit
            · rw [htr2] at hr
              rcases List.mem_append.mp hr with hp | hone
              · rw [hpre s hp] at hhit
                exact absurd hhit (by simp)
              · have hs1 : s = s1 := by simpa using hone
                subst hs1
                refine ⟨⟨[Stage.official, Stage.social] ++ pre, by rw [htr2]; rfl, ?_⟩, ?_⟩
                · intro s2 hs2
                  rcases List.mem_append.mp hs2 with h2 | h2
                  · rcases (by simpa using h2 : s2 = Stage.official ∨ s2 = Stage.social)
                      with rfl | rfl
                    · simp [stageHit, hfd]
                    · simp [stageHit, hsoc]
                  · exact hpre s2 h2
                · rw [fallbackBuild_source_url, hsrc1]
          · intro _ hall
            rw [hall s1] at hhit1
            exact absurd hhit1 (by simp)
        | none =>
          dsimp only
          refine ⟨?_, ?_, ?_⟩
          · exact List.Sublist.append_left props.2.2 [Stage.official, Stage.social]
          · intro s hs hhit
            rcases List.mem_append.mp hs with hl | hr
            · rcases (by simpa using hl : s = Stage.official ∨ s = Stage.social) with rfl | rfl
              · simp [stageHit, hfd] at hhit
              · simp [stageHit, hsoc] at hhit
            · rw [props.2.1 hscan s hr] at hhit
              exact absurd hhit (by simp)
          · intro _ _
            have hfull := scanStages_full (fallbackItems env true)
              (fallbackItems_gates env) hscan
            rw [hfull]
            rfl
  | none =>
    dsimp only
    cases hsoc : env.social with
    | some x =>
      obtain ⟨fmt, blob, src⟩ := x
      dsimp only
      have hsst : stageSrc env Stage.social = some src := by
        simp [stageSrc, hsoc]
      have hne : src ≠ "" := fun he => hwf Stage.social (by rw [hsst, he])
      have htru : truthy (socialBuild env (initRec brand none)
          fmt blob src).1.source_url = true := by
        rw [socialBuild_source_url]
        simp [truthy, hne]
      rw [if_pos htru]
      refine ⟨(by decide : List.Sublist [Stage.social] chainOrder), ?_, ?_⟩
      · intro s hs hhit
        have hs2 : s = Stage.social := by simpa using hs
        subst hs2
        refine ⟨⟨[], rfl, by simp⟩, ?_⟩
        rw [socialBuild_source_url, hsst]
      · intro hd _
        simp at hd
    | none =>
      dsimp only
      rw [if_neg (fun hcon : truthy _ = true => by
        rw [show truthy ({ initRec brand none with
          notes := some NOTE_EXHAUSTED } : Rec).source_url = false from rfl] at hcon
        exact Bool.false_ne_true hcon)]
      simp only [Option.isSome_none]
      have props := fallback_scan_props env false
      cases hscan : (scanStages (fallbackItems env false)).1 with
      | some p =>
        obtain ⟨s1, fmt, blob, src, off⟩ := p
        dsimp only
        obtain ⟨hhit1, hsrc1, pre, htr2, hpre⟩ := props.1 s1 (fmt, blob, src, off) hscan
        refine ⟨?_, ?_, ?_⟩
        · exact (List.Sublist.append_left props.2.2 [Stage.social]).cons Stage.official
        · intro s hs hhit
          rcases List.mem_append.mp hs with hl | hr
          · rcases (by simpa using hl : s = Stage.social) with rfl
            simp [stageHit, hsoc] at hhit
          · rw [htr2] at hr
            rcases List.mem_append.mp hr with hp | hone
            · rw [hpre s hp] at hhit
              exact absurd hhit (by simp)
            · have hs1 : s = s1 := by simpa using hone
              subst hs1
              refine ⟨⟨[Stage.social] ++ pre, by rw [htr2]; rfl, ?_⟩, ?_⟩
              · intro s2 hs2
                rcases List.mem_append.mp hs2 with h2 | h2
                · rcases (by simpa using h2 : s2 = Stage.social) with rfl
                  simp [stageHit, hsoc]
                · exact hpre s2 h2
              · rw [fallbackBuild_source_url, hsrc1]
        · intro hd _
          simp at hd
      | none =>
        dsimp only
        refine ⟨?_, ?_, ?_⟩
        · exact (List.Sublist.append_left props.2.2 [Stage.social]).cons Stage.official
        · intro s hs hhit
          rcases List.mem_append.mp hs with hl | hr
          · rcases (by simpa using hl : s = Stage.social) with rfl
            simp [stageHit, hsoc] at hhit
          · rw [props.2.1 hscan s hr] at hhit
            exact absurd hhit (by simp)
        · intro hd _
          simp at hd

/-- Claim C1 witness: the chain evaluated in an environment where the
official crawl succeeds; the trace stops at the first stage and the
record carries the source URL of that stage. -/
theorem c1_witness :
    wfEnv envJpg ∧
    (pipeline_with_fallbacks envJpg "Acme" (some "ex.com")).2.2 = [Stage.official] ∧
    (pipeline_with_fallbacks envJpg "Acme" (some "ex.com")).1.source_url =
      stageSrc envJpg Stage.official := by
  have hwf : wfEnv envJpg := by
    unfold wfEnv
    decide
  refine ⟨hwf, by decide, ?_⟩
  exact ((c1_source_chain envJpg "Acme" (some "ex.com") hwf).2.1 Stage.official
    (by decide) (by decide)).2

/-! ## Lemmas for the batch loop and failure records -/

theorem pipeline_official_first_brand (env : Env) (brand : String)
    (domain : Option String) :
    (pipeline_official_first env brand domain).1.brand = brand := by
  unfold pipeline_official_first
  cases domain with
  | some d =>
    dsimp only
    cases firstDownload env.links env.download with
    | some x =>
      obtain ⟨fmt, blob, src⟩ := x
      dsimp only
      rw [officialBuild_brand]
      rfl
    | none =>
      cases env.social with
      | some x =>
        obtain ⟨fmt, blob, src⟩ := x
        dsimp only
        rw [socialBuild_brand]
        rfl
      | none => rfl
  | none =>
    dsimp only
    cases env.social with
    | some x =>
      obtain ⟨fmt, blob, src⟩ := x
      dsimp only
      rw [socialBuild_brand]
      rfl
    | none => rfl

theorem pipeline_brand (env : Env) (brand : String) (domain : Option String) :
    (pipeline_with_fallbacks env brand domain).1.brand = brand := by
  unfold pipeline_with_fallbacks
  dsimp only
  split
  · exact pipeline_official_first_brand env brand domain
  · split
    · exact pipeline_official_first_brand env brand domain
    · rw [fallbackBuild_brand]
      exact pipeline_official_first_brand env brand domain

theorem pipeline_empty (env : Env) (brand : String) (domain : Option String)
    (hempty : allStagesEmpty env) :
    (pipeline_with_fallbacks env brand domain).1 =
      { initRec brand domain with notes := some NOTE_EXHAUSTED } := by
  have hfd : firstDownload env.links env.download = none := by
    cases hs : firstDownload env.links env.download with
    | none => rfl
    | some x => exact absurd (hempty Stage.official) (by simp [stageHit, hs])
  have hsoc : env.social = none := by
    cases hs : env.social with
    | none => rfl
    | some x => exact absurd (hempty Stage.social) (by simp [stageHit, hs])
  have hscan : ∀ hd : Bool, (scanStages (fallbackItems env hd)).1 = none := by
    intro hd
    cases hs : (scanStages (fallbackItems env hd)).1 with
    | none => rfl
    | some p =>
      obtain ⟨s1, fb⟩ := p
      obtain ⟨hfb, -⟩ := scanStages_some env _ (fallbackItems_faithful env hd) s1 fb hs
      have hh : stageHit env s1 = true := by
        cases s1 <;> simp_all [stageFB, stageHit]
      rw [hempty s1] at hh
      exact absurd hh (by simp)
  unfold pipeline_with_fallbacks pipeline_official_first
  cases domain with
  | some d =>
    dsimp only
    rw [hfd]
    dsimp only
    rw [hsoc]
    dsimp only
    rw [if_neg (fun hcon : truthy _ = true => by
      rw [show truthy ({ initRec brand (some d) with
        notes := some NOTE_EXHAUSTED } : Rec).source_url = false from rfl] at hcon
      exact Bool.false_ne_true hcon)]
    rw [hscan (some d : Option String).isSome]
  | none =>
    dsimp only
    rw [hsoc]
    dsimp only
    rw [if_neg (fun hcon : truthy _ = true => by
      rw [show truthy ({ initRec brand none with
        notes := some NOTE_EXHAUSTED } : Rec).source_url = false from rfl] at hcon
      exact Bool.false_ne_true hcon)]
    rw [hscan (none : Option String).isSome]

/-- Claim C8: the batch writes one record per non-blank input row, in
input order, with the brand field of each record equal to the stripped row (so the
aggregate document covers all brands and the batch completes); and every
brand for which every stage of the chain returns empty gets a record
with the explanatory note and null saved vector and raster paths (and a
null source URL). -/
theorem c8_exhausted_batch (rows : List String) (envOf : String → Env)
    (domainOf : String → Option String) :
    (mainModel rows envOf domainOf).map Rec.brand =
      (rows.map pyStrip).filter (fun b => !(b == "")) ∧
    (∀ r ∈ mainModel rows envOf domainOf, allStagesEmpty (envOf r.brand) →
      r.notes = some NOTE_EXHAUSTED ∧ r.source_url = none ∧
      r.saved_svg = none ∧ r.saved_png = none) := by
  constructor
  · unfold mainModel
    rw [List.map_map]
    have hcg : ∀ b ∈ (rows.map pyStrip).filter (fun b => !(b == "")),
        (Rec.brand ∘ fun b => (pipeline_with_fallbacks (envOf b) b (domainOf b)).1) b
          = id b := by
      intro b _
      simp only [Function.comp, id]
      exact pipeline_brand (envOf b) b (domainOf b)
    rw [List.map_congr_left hcg, List.map_id]
  · intro r hr hempty
    unfold mainModel at hr
    rw [List.mem_map] at hr
    obtain ⟨b, _, rfl⟩ := hr
    rw [pipeline_brand (envOf b) b (domainOf b)] at hempty
    rw [pipeline_empty (envOf b) b (domainOf b) hempty]
    exact ⟨rfl, rfl, rfl, rfl⟩

/-- Claim C8 witness: a concrete batch with a blank row and all stages
empty; the aggregate covers the two non-blank brands and the first
record carries the note with null paths. -/
theorem c8_witness :
    (mainModel ["  acme ", "", "Beta"] (fun _ => envEmpty) (fun _ => none)).map
      Rec.brand = ["acme", "Beta"] ∧
    ((pipeline_with_fallbacks envEmpty "acme" none).1.notes = some NOTE_EXHAUSTED ∧
      (pipeline_with_fallbacks envEmpty "acme" none).1.source_url = none ∧
      (pipeline_with_fallbacks envEmpty "acme" none).1.saved_svg = none ∧
      (pipeline_with_fallbacks envEmpty "acme" none).1.saved_png = none) := by
  have h := c8_exhausted_batch ["  acme ", "", "Beta"] (fun _ => envEmpty) (fun _ => none)
  constructor
  · rw [h.1]
    decide
  · exact h.2 (pipeline_with_fallbacks envEmpty "acme" none).1 (by decide)
      (by unfold allStagesEmpty; decide)

/-- Claim C9: when the official crawl and the social stage both come up
empty but some fallback stage succeeds, the returned record keeps the
note written by `pipeline_official_first` alongside a non-null source
URL — a successful fallback never clears the failure note, so a non-null
note does not imply that resolution failed. -/
theorem c9_fallback_keeps_note (env : Env) (brand : String) (domain : Option String)
    (h1 : firstDownload env.links env.download = none)
    (h2 : env.social = none)
    (h3 : (scanStages (fallbackItems env domain.isSome)).1.isSome = true) :
    (pipeline_with_fallbacks env brand domain).1.notes = some NOTE_EXHAUSTED ∧
    (pipeline_with_fallbacks env brand domain).1.source_url.isSome = true := by
  unfold pipeline_with_fallbacks pipeline_official_first
  cases domain with
  | some d =>
    dsimp only
    rw [h1]
    dsimp only
    rw [h2]
    dsimp only
    rw [if_neg (fun hcon : truthy _ = true => by
      rw [show truthy ({ initRec brand (some d) with
        notes := some NOTE_EXHAUSTED } : Rec).source_url = false from rfl] at hcon
      exact Bool.false_ne_true hcon)]
    cases hscan : (scanStages (fallbackItems env (some d : Option String).isSome)).1 with
    | none =>
      rw [hscan] at h3
      simp at h3
    | some p =>
      obtain ⟨s1, fmt, blob, src, off⟩ := p
      dsimp only
      refine ⟨?_, ?_⟩
      · rw [fallbackBuild_notes]
      · rw [fallbackBuild_source_url]
        rfl
  | none =>
    dsimp only
    rw [h2]
    dsimp only
    rw [if_neg (fun hcon : truthy _ = true => by
      rw [show truthy ({ initRec brand none with
        notes := some NOTE_EXHAUSTED } : Rec).source_url = false from rfl] at hcon
      exact Bool.false_ne_true hcon)]
    cases hscan : (scanStages (fallbackItems env (none : Option String).isSome)).1 with
    | none =>
      rw [hscan] at h3
      simp at h3
    | some p =>
      obtain ⟨s1, fmt, blob, src, off⟩ := p
      dsimp only
      refine ⟨?_, ?_⟩
      · rw [fallbackBuild_notes]
      · rw [fallbackBuild_source_url]
        rfl

/-- Claim C9 witness: resolution through the Simple Icons fallback keeps
the note and a non-null source URL. -/
theorem c9_witness :
    (pipeline_with_fallbacks envSimple "acme" none).1.notes = some NOTE_EXHAUSTED ∧
    (pipeline_with_fallbacks envSimple "acme" none).1.source_url.isSome = true :=
  c9_fallback_keeps_note envSimple "acme" none (by decide) (by decide) (by decide)

/-- Claim C10: when the official crawl (stage 1) downloads an asset
classified `jpg`, the pipeline writes the original jpg bytes into the
raster archive under `<slug>.png` (`save_raw` maps format `jpg` to
extension `png`), and the returned record has its source URL set and its
`official` flag computed from the host match, but both saved paths still
null, because the stage-1 code has no jpg branch recording a path. -/
theorem c10_jpg_stage1 (env : Env) (brand d : String) (blob : Blob) (src : String)
    (h : firstDownload env.links env.download = some (Fmt.jpg, blob, src)) :
    (pipeline_official_first env brand (some d)).1.source_url = some src ∧
    (pipeline_official_first env brand (some d)).1.official =
      is_same_or_subdomain src d ∧
    (pipeline_official_first env brand (some d)).1.saved_svg = none ∧
    (pipeline_official_first env brand (some d)).1.saved_png = none ∧
    (pipeline_official_first env brand (some d)).2.1 =
      [(save_raw_path (slugify brand) Fmt.jpg, blob)] ∧
    save_raw_path (slugify brand) Fmt.jpg = pngPath (slugify brand) := by
  unfold pipeline_official_first
  dsimp only
  rw [h]
  dsimp only
  unfold officialBuild
  dsimp only
  exact ⟨rfl, rfl, rfl, rfl, rfl, rfl⟩

/-- Claim C10 witness: the jpg stage-1 behavior in a concrete
environment whose official link serves JPEG bytes. -/
theorem c10_witness :
    firstDownload envJpg.links envJpg.download =
      some (Fmt.jpg, [255, 216, 255, 0], "https://ex.com/logo.jpg") ∧
    (pipeline_official_first envJpg "Acme" (some "ex.com")).1.saved_png = none ∧
    (pipeline_official_first envJpg "Acme" (some "ex.com")).2.1 =
      [(save_raw_path (slugify "Acme") Fmt.jpg, [255, 216, 255, 0])] :=
  ⟨by decide,
    (c10_jpg_stage1 envJpg "Acme" "ex.com" [255, 216, 255, 0]
      "https://ex.com/logo.jpg" (by decide)).2.2.2.1,
    (c10_jpg_stage1 envJpg "Acme" "ex.com" [255, 216, 255, 0]
      "https://ex.com/logo.jpg" (by decide)).2.2.2.2.1⟩
